import Mathlib

/-!
# Verification of the `tui_tiling` layout engine

A shallow embedding of the core tree data structure and algorithms of the
`tui_tiling` repository (leaf `Component`s and composite `ContainerList`s,
proportional/fixed size distribution, interactive border-drag resize, the
focus state machine, and tree search), together with theorems settling the
specification's claims about them.

Conventions of the embedding:
* `u16` values (widths, heights, coordinates, mouse offsets) are modelled as
  `Nat`.  Where the source can underflow a `u16` subtraction (a panic in debug
  builds), the model makes the panic explicit by returning `Option.none`;
  where a subtraction is guarded by a bounds check in the source, truncated
  `Nat` subtraction is exact and is used directly.
* In-place mutation (`&mut self`) is modelled by returning the updated value;
  a Rust method returning `Result<(), ResizeError>` becomes a function
  returning the updated value paired with an `Option ResizeError`.
* The inner `ComponentWidget` of a leaf is an external collaborator (trait
  object): it owns no tree state.  Its handlers only report whether the leaf
  needs redrawing; the model keeps the leaf's `invalidated` flag but does not
  track redraw requests originating inside the external widget.
* The source's `f64` ratio arithmetic (`SizingConstraint::Ratio`) is modelled
  with exact fractions `num/den`; the truncating cast `(r * size as f64) as
  u16` becomes `num * size / den` with `Nat` (floor) division.
-/

set_option autoImplicit false

namespace TuiTiling

/-- `Focus` from `src/lib.rs`: the three-state focus machine of a node. -/
inductive Focus where
  | focus
  | partialFocus
  | none
  deriving DecidableEq, Repr

/-- `Border` from `src/lib.rs`: which edge of a rectangle a coordinate lies
on, or which edge focus should exit through. -/
inductive Border where
  | top
  | bottom
  | left
  | right
  deriving DecidableEq, Repr

/-- `ResizeError` from `src/lib.rs`: a resize request that cannot be
satisfied, carrying the node name, the attempted dimensions and the border
thickness. -/
structure ResizeError where
  name : String
  width : Nat
  height : Nat
  border_width : Nat
  deriving DecidableEq, Repr

/-- `tui::layout::Direction`: the layout axis of a `ContainerList`. -/
inductive Direction where
  | horizontal
  | vertical
  deriving DecidableEq, Repr

/-- `crossterm::event::MouseButton` (the variants the source matches on). -/
inductive MouseButton where
  | left
  | right
  | middle
  deriving DecidableEq, Repr

/-- `crossterm::event::MouseEventKind` (the variants the source matches on). -/
inductive MouseEventKind where
  | down (b : MouseButton)
  | drag (b : MouseButton)
  | up (b : MouseButton)
  | moved
  | scrollDown
  | scrollUp
  deriving DecidableEq, Repr

/-- `crossterm::event::KeyCode`, restricted to the variants the source
distinguishes; every other key is `other`. -/
inductive KeyCode where
  | enter
  | esc
  | up
  | down
  | left
  | right
  | other
  deriving DecidableEq, Repr

/-- `crossterm::event::KeyEvent`: the source only ever inspects the `code`
field (modifiers and kind are forwarded to the external widget unchanged), so
the model carries the code alone. -/
structure KeyEvent where
  code : KeyCode
  deriving DecidableEq, Repr

/-- Modelled from the spec: `ComponentPos` from the missing `src/pos.rs` —
an unsigned 2D coordinate, absolute-from-root or relative-to-an-ancestor
(spec §3). -/
structure ComponentPos where
  x : Nat
  y : Nat
  deriving DecidableEq, Repr

/-- `tui::layout::Rect`: a rectangle used for child geometry. -/
structure Rect where
  x : Nat
  y : Nat
  width : Nat
  height : Nat
  deriving DecidableEq, Repr

/-- Modelled from the spec: offset addition on `ComponentPos` (missing
`src/pos.rs`; spec §3 "supports offset addition"). -/
def ComponentPos.add (p q : ComponentPos) : ComponentPos :=
  ⟨p.x + q.x, p.y + q.y⟩

/-- Modelled from the spec: offset subtraction on `ComponentPos` (missing
`src/pos.rs`; spec §3: "subtraction fails/is undefined if the right-hand
point does not fall within the point being subtracted from — used only where
geometric containment is already guaranteed").  All uses in the source are
guarded by a containment check, so truncated `Nat` subtraction is exact. -/
def ComponentPos.sub (p q : ComponentPos) : ComponentPos :=
  ⟨p.x - q.x, p.y - q.y⟩

/-- Modelled from the spec: `ComponentPos::intersects_rect` and the 1×1
`Rect::from(ComponentPos)` intersection test of the missing `src/pos.rs`
(spec §3: "does this rectangle contain this point" tests). -/
def intersects_rect (p : ComponentPos) (r : Rect) : Bool :=
  r.x ≤ p.x && p.x < r.x + r.width && r.y ≤ p.y && p.y < r.y + r.height

/-- `Component` from `src/component.rs`: a leaf node.  The owned
`Box<dyn ComponentWidget>` is an external collaborator and carries no tree
state, so it is not part of the model. -/
structure Component where
  name : String
  width : Nat
  height : Nat
  fixed_width : Bool
  fixed_height : Bool
  border_width : Nat
  invalidated : Bool
  focus : Focus
  deriving DecidableEq, Repr

namespace Component

/-- `Component::new`: a fresh leaf is 0×0, flexible on both axes, invalidated
and unfocused. -/
def new (name : String) (border_width : Nat) : Component :=
  { name := name
    width := 0
    height := 0
    fixed_width := false
    fixed_height := false
    border_width := border_width
    invalidated := true
    focus := Focus.none }

/-- `Component::invalidate`. -/
def invalidate (c : Component) : Component :=
  { c with invalidated := true }

/-- `Component::set_focus`: updates the focus and invalidates only on an
actual change. -/
def set_focus (c : Component) (f : Focus) : Component :=
  if c.focus ≠ f then { c with focus := f, invalidated := true } else c

/-- `Component::set_fixed_width`: `Some w` pins the width to `w` and marks
the axis fixed; `None` marks it flexible again. -/
def set_fixed_width (c : Component) (fw : Option Nat) : Component :=
  match fw with
  | some w => { c with width := w, fixed_width := true }
  | Option.none => { c with fixed_width := false }

/-- `Component::set_fixed_height`. -/
def set_fixed_height (c : Component) (fh : Option Nat) : Component :=
  match fh with
  | some h => { c with height := h, fixed_height := true }
  | Option.none => { c with fixed_height := false }

/-- `Component::resize` (`src/component.rs` lines 228–249): fails when either
dimension is below `max(2 * border_width, 1)`; otherwise invalidates on a
size change and updates the non-fixed dimensions.  The forwarding of the
unadjusted size to the external widget's own `resize` has no tree state. -/
def resize (c : Component) (width height : Nat) : Component × Option ResizeError :=
  let min := Nat.max (c.border_width * 2) 1
  if width < min ∨ height < min then
    (c, some ⟨c.name, width, height, c.border_width⟩)
  else
    let c := if c.width ≠ width ∨ c.height ≠ height then c.invalidate else c
    let c := if ¬c.fixed_width then { c with width := width } else c
    let c := if ¬c.fixed_height then { c with height := height } else c
    (c, Option.none)

/-- `Component::handle_key` (`src/component.rs` lines 182–216): returns the
updated leaf and the optional exit border.  In `Focus`, every key other than
`Esc` is forwarded to the external widget, which holds no tree state. -/
def handle_key (c : Component) (e : KeyEvent) : Component × Option Border :=
  match c.focus with
  | Focus.focus =>
    match e.code with
    | KeyCode.esc => (c.set_focus Focus.partialFocus, Option.none)
    | _ => (c, Option.none)
  | Focus.partialFocus =>
    match e.code with
    | KeyCode.up => (c.set_focus Focus.none, some Border.top)
    | KeyCode.down => (c.set_focus Focus.none, some Border.bottom)
    | KeyCode.left => (c.set_focus Focus.none, some Border.left)
    | KeyCode.right => (c.set_focus Focus.none, some Border.right)
    | KeyCode.enter => (c.set_focus Focus.focus, Option.none)
    | _ => (c, Option.none)
  | Focus.none =>
    if e.code = KeyCode.enter then (c.set_focus Focus.focus, Option.none)
    else (c, Option.none)

/-- `Component::handle_mouse` (`src/component.rs` lines 151–180).  The result
is `Option.none` exactly when the `u16` interior hit-test `x < width -
border_width && y < height - border_width` underflows (a panic in debug
builds); `&&` short-circuits, so each subtraction is only evaluated when the
preceding conjuncts hold.  Forwarding to the external widget changes no tree
state beyond the redraw flag of the widget itself. -/
def handle_mouse (c : Component) (x y : Nat) (kind : Option MouseEventKind) :
    Option Component :=
  match kind with
  | Option.none => some (c.set_focus Focus.none)
  | some MouseEventKind.moved => some c
  | some kind =>
    -- in_widget = x ≥ bw && y ≥ bw && x < width - bw && y < height - bw,
    -- evaluated left to right with short-circuiting before the focus match;
    -- the subtractions underflow exactly in the two cases made explicit here.
    if x ≥ c.border_width && y ≥ c.border_width && c.width < c.border_width then
      Option.none   -- `self.width - self.border_width` underflows
    else if x ≥ c.border_width && y ≥ c.border_width &&
        x < c.width - c.border_width && c.height < c.border_width then
      Option.none   -- `self.height - self.border_width` underflows
    else
      let in_component := x < c.width && y < c.height
      match kind with
      | MouseEventKind.down MouseButton.left =>
        some (if in_component then c.set_focus Focus.focus else c)
      | MouseEventKind.drag MouseButton.left =>
        some (if in_component then c.set_focus Focus.focus else c)
      | _ => some c

/-- `Component::get_border` (`src/component.rs` lines 318–333): classifies a
point against the four borders, checking Left, Right, Top, Bottom in order. -/
def get_border (c : Component) (x y : Nat) : Option Border :=
  if x ≥ c.width ∨ y ≥ c.height then Option.none
  else if x < c.border_width then some Border.left
  else if x ≥ c.width - c.border_width then some Border.right
  else if y < c.border_width then some Border.top
  else if y ≥ c.height - c.border_width then some Border.bottom
  else Option.none

end Component

/-- `Resize` from `src/container/list.rs`: the interactive border-drag state
machine (`None`, or dragging the border before/after child `child_index`,
carrying the last mouse offset along the layout axis). -/
inductive ResizeDrag where
  | leftTop (mouse_offset : Nat) (child_index : Nat)
  | rightBottom (mouse_offset : Nat) (child_index : Nat)
  | none
  deriving DecidableEq, Repr

/-- The non-recursive fields of `ContainerList` from `src/container/list.rs`
(`resizeState` is the source's `resize` field, renamed because the model uses
`resize` for the method). -/
structure ContainerFields where
  name : String
  orientation : Direction
  resizable : Bool
  resizeState : ResizeDrag
  width : Nat
  height : Nat
  deriving DecidableEq, Repr

/-- `ContainerChild` from `src/container.rs`: a child is either a leaf
`Component` or a nested container.  The only `Container` implementation in
the repository is `ContainerList`, so the boxed trait object is modelled as
the container's fields plus its ordered children. -/
inductive ContainerChild where
  | component (c : Component)
  | container (f : ContainerFields) (children : List ContainerChild)

namespace ContainerChild

/-- `ComponentBase::get_width` of a child (`Component` stores it directly;
`ContainerList` stores its own recorded width). -/
def getWidth : ContainerChild → Nat
  | component c => c.width
  | container f _ => f.width

/-- `ComponentBase::get_height` of a child. -/
def getHeight : ContainerChild → Nat
  | component c => c.height
  | container f _ => f.height

/-- `ComponentBase::get_name` of a child. -/
def getName : ContainerChild → String
  | component c => c.name
  | container f _ => f.name

end ContainerChild

mutual

/-- `ComponentBase::is_fixed_width`: a leaf reads its flag; a `ContainerList`
is fixed-width iff all of its children are. -/
def childFixedWidth : ContainerChild → Bool
  | ContainerChild.component c => c.fixed_width
  | ContainerChild.container _ cs => listFixedWidth cs

/-- `is_fixed_width` folded over a child list (`children.iter().all(...)`). -/
def listFixedWidth : List ContainerChild → Bool
  | [] => true
  | c :: cs => childFixedWidth c && listFixedWidth cs

end

mutual

/-- `ComponentBase::is_fixed_height`, mirror of `childFixedWidth`. -/
def childFixedHeight : ContainerChild → Bool
  | ContainerChild.component c => c.fixed_height
  | ContainerChild.container _ cs => listFixedHeight cs

/-- `is_fixed_height` folded over a child list. -/
def listFixedHeight : List ContainerChild → Bool
  | [] => true
  | c :: cs => childFixedHeight c && listFixedHeight cs

end

/-- Extent of a child along the layout axis of `orient`. -/
def axisExtent (orient : Direction) (c : ContainerChild) : Nat :=
  match orient with
  | Direction.horizontal => c.getWidth
  | Direction.vertical => c.getHeight

/-- Extent of a child along the cross axis of `orient`. -/
def crossExtent (orient : Direction) (c : ContainerChild) : Nat :=
  match orient with
  | Direction.horizontal => c.getHeight
  | Direction.vertical => c.getWidth

/-- Whether a child is fixed along the layout axis of `orient`. -/
def axisFixed (orient : Direction) (c : ContainerChild) : Bool :=
  match orient with
  | Direction.horizontal => childFixedWidth c
  | Direction.vertical => childFixedHeight c

/-- Whether a child is fixed along the cross axis of `orient`. -/
def crossFixed (orient : Direction) (c : ContainerChild) : Bool :=
  match orient with
  | Direction.horizontal => childFixedHeight c
  | Direction.vertical => childFixedWidth c

/-- The shape (constructor skeleton) of a tree, used as the structural
termination measure for `ContainerList::resize`: the source resizes children
in place and, on failure, re-resizes the *partially updated* children to roll
them back, so the recursion is by the (resize-invariant) shape of the tree,
not by the tree value itself.  A child list is encoded with `nil`/`cons`. -/
inductive Shape where
  | comp
  | cont (children : Shape)
  | nil
  | cons (head tail : Shape)
  deriving DecidableEq, Repr

mutual

/-- The shape of a child tree. -/
def shapeOf : ContainerChild → Shape
  | ContainerChild.component _ => Shape.comp
  | ContainerChild.container _ cs => Shape.cont (shapeOfList cs)

/-- The shape of a child list. -/
def shapeOfList : List ContainerChild → Shape
  | [] => Shape.nil
  | c :: cs => Shape.cons (shapeOf c) (shapeOfList cs)

end

/-- `SizingConstraint` from `src/container/list.rs`.  The source's
`Ratio(f64)` is an exact real ratio built by normalising `u16` weights; the
model keeps it as the fraction `num/den` (see the header comment on `f64`). -/
inductive SizingConstraint where
  | fixed (f : Nat)
  | ratio (num den : Nat)
  deriving DecidableEq, Repr

/-- The pre-normalisation constraint of one child
(`ContainerList::get_sizing_constraints`, first `map`): fixed children
contribute their current extent as a `Fixed` constraint, the rest contribute
it as a raw ratio weight. -/
def rawConstraint (orient : Direction) (c : ContainerChild) : SizingConstraint :=
  match orient with
  | Direction.horizontal =>
    if childFixedWidth c then SizingConstraint.fixed c.getWidth
    else SizingConstraint.ratio c.getWidth 1
  | Direction.vertical =>
    if childFixedHeight c then SizingConstraint.fixed c.getHeight
    else SizingConstraint.ratio c.getHeight 1

/-- The normalisation step of `get_sizing_constraints`: with the aggregates
fixed, a `Fixed` constraint is kept, and a ratio weight becomes the equal
share `1/num_ratio` when any ratio weight is zero, else `weight/total`. -/
def normalizeConstraint (any_ratio_zero : Bool) (num_ratio total_ratio : Nat) :
    SizingConstraint → SizingConstraint
  | SizingConstraint.fixed f => SizingConstraint.fixed f
  | SizingConstraint.ratio w _ =>
    if any_ratio_zero then SizingConstraint.ratio 1 num_ratio
    else SizingConstraint.ratio w total_ratio

/-- `ContainerList::get_sizing_constraints` (`src/container/list.rs` lines
110–160): collect fixed extents and raw ratio weights, then normalise the
weights.  (The source wraps the result in `Some` but never returns
`None`.) -/
def get_sizing_constraints (orient : Direction) (cs : List ContainerChild) :
    List SizingConstraint :=
  let raw := cs.map (rawConstraint orient)
  let total_ratio := (raw.map fun c =>
    match c with
    | SizingConstraint.fixed _ => 0
    | SizingConstraint.ratio w _ => w).sum
  let num_ratio := (raw.map fun c =>
    match c with
    | SizingConstraint.fixed _ => 0
    | SizingConstraint.ratio _ _ => 1).sum
  let any_ratio_zero := raw.any fun c =>
    match c with
    | SizingConstraint.fixed _ => false
    | SizingConstraint.ratio w _ => w = 0
  raw.map (normalizeConstraint any_ratio_zero num_ratio total_ratio)

/-- The `Fixed` entries of a constraint list, in order
(`fixed_constraints` in `ContainerList::calculate_sizes`). -/
def fixedParts : List SizingConstraint → List Nat
  | [] => []
  | SizingConstraint.fixed f :: cs => f :: fixedParts cs
  | SizingConstraint.ratio _ _ :: cs => fixedParts cs

/-- The `Ratio` entries of a constraint list, in order
(`ratio_constraints` in `ContainerList::calculate_sizes`). -/
def ratioParts : List SizingConstraint → List (Nat × Nat)
  | [] => []
  | SizingConstraint.fixed _ :: cs => ratioParts cs
  | SizingConstraint.ratio n d :: cs => (n, d) :: ratioParts cs

/-- The fixed-assignment loop of `calculate_sizes`: accumulate the fixed
extents, failing as soon as the running total exceeds `size`; returns the
total. -/
def assignFixed : List Nat → Nat → Nat → Option Nat
  | [], _, total => some total
  | f :: fs, size, total =>
    let total := total + f
    if size < total then Option.none else assignFixed fs size total

/-- The truncating share `(r * size as f64) as u16` for the exact ratio
`num/den` (floor division). -/
def ratioShare (num den size : Nat) : Nat :=
  num * size / den

/-- The ratio-assignment loop of `calculate_sizes`: every ratio child but the
last receives its rounded-down share of `size`, the last receives the exact
remainder `size - result_total`; any zero share fails. -/
def assignRatio : List (Nat × Nat) → Nat → Nat → Option (List Nat)
  | [], _, _ => some []
  | [(_, _)], size, total =>
    let v := size - total
    if v = 0 then Option.none else some [v]
  | (n, d) :: rs, size, total =>
    let v := ratioShare n d size
    if v = 0 then Option.none
    else
      match assignRatio rs size (total + v) with
      | some vs => some (v :: vs)
      | Option.none => Option.none

/-- Reassemble the per-child size vector from the constraint list and the
ratio assignments (the source writes into `result[i]` at the recorded
indices; walking the constraints in order and consuming the ratio values in
order produces the same vector). -/
def scatter : List SizingConstraint → List Nat → List Nat
  | [], _ => []
  | SizingConstraint.fixed f :: cs, vs => f :: scatter cs vs
  | SizingConstraint.ratio _ _ :: cs, [] => 0 :: scatter cs []
  | SizingConstraint.ratio _ _ :: cs, v :: vs => v :: scatter cs vs

/-- `ContainerList::calculate_sizes` (`src/container/list.rs` lines
163–211). -/
def calculate_sizes (constraints : List SizingConstraint) (size : Nat) :
    Option (List Nat) :=
  match assignFixed (fixedParts constraints) size 0 with
  | Option.none => Option.none
  | some fixedTotal =>
    match assignRatio (ratioParts constraints) (size - fixedTotal) 0 with
    | Option.none => Option.none
    | some vs => some (scatter constraints vs)

/-- Extent along the layout axis selected from a `(width, height)` request. -/
def axisSize (orient : Direction) (w h : Nat) : Nat :=
  match orient with
  | Direction.horizontal => w
  | Direction.vertical => h

/-- One child's `(width, height)` request: its axis share `s`, the requested
extent on the cross axis. -/
def mkPair (orient : Direction) (w h s : Nat) : Nat × Nat :=
  match orient with
  | Direction.horizontal => (s, h)
  | Direction.vertical => (w, s)

/-- The per-child `(width, height)` requests derived from the axis sizes
(`new_sizes` in `ContainerList::resize`). -/
def pairsOf (orient : Direction) (sizes : List Nat) (w h : Nat) :
    List (Nat × Nat) :=
  sizes.map (mkPair orient w h)

mutual

/-- `ComponentBase::resize` of a child tree, recursing on the shape index
(see `Shape`).  For a leaf this is `Component::resize`; for a container it is
`ContainerList::resize` (`src/container/list.rs` lines 502–555): return `Ok`
unchanged when the requested dimensions equal the current ones, otherwise
distribute the layout-axis extent over the children and resize them in order;
on any child failure re-resize every (partially updated) child to its old
dimensions, ignoring rollback errors, and propagate the error with the
container's own recorded dimensions unchanged.  The result is the
post-call tree (the source mutates in place) plus the optional error.  The
branches where the shape does not match the tree are unreachable when the
shape is `shapeOf` of the tree. -/
def resizeSh : Shape → ContainerChild → Nat → Nat → ContainerChild × Option ResizeError
  | Shape.comp, ContainerChild.component c, w, h =>
    let (c', e) := Component.resize c w h
    (ContainerChild.component c', e)
  | Shape.cont ss, ContainerChild.container f cs, w, h =>
    if f.width = w ∧ f.height = h then (ContainerChild.container f cs, Option.none)
    else
      let constraints := get_sizing_constraints f.orientation cs
      let oldDims := cs.map fun c => (c.getWidth, c.getHeight)
      match calculate_sizes constraints (axisSize f.orientation w h) with
      | Option.none =>
        (ContainerChild.container f cs, some ⟨f.name, w, h, 0⟩)
      | some sizes =>
        match resizeSeqSh ss cs (pairsOf f.orientation sizes w h) with
        | (cs₁, Option.none) =>
          (ContainerChild.container { f with width := w, height := h }
            (invalidateListSh ss cs₁), Option.none)
        | (cs₁, some e) =>
          (ContainerChild.container f (rollbackSh ss cs₁ oldDims), some e)
  | _, c, _, _ => (c, Option.none)

/-- The child-resize loop of `ContainerList::resize`: resize each child to
its requested pair in order, stopping at (and returning) the first error,
with the already-resized prefix kept in its new state. -/
def resizeSeqSh : Shape → List ContainerChild → List (Nat × Nat) →
    List ContainerChild × Option ResizeError
  | Shape.cons s ss, c :: cs, p :: ps =>
    (match resizeSh s c p.1 p.2 with
     | (c', Option.none) =>
       let (cs', e) := resizeSeqSh ss cs ps
       (c' :: cs', e)
     | (c', some e) => (c' :: cs, some e))
  | _, cs, _ => (cs, Option.none)

/-- The rollback loop of `ContainerList::resize`: re-resize each child to its
old dimensions, keeping the post-state and discarding any error
(`let _ = ... .resize(dim.0, dim.1)`). -/
def rollbackSh : Shape → List ContainerChild → List (Nat × Nat) →
    List ContainerChild
  | Shape.cons s ss, c :: cs, d :: ds =>
    (resizeSh s c d.1 d.2).1 :: rollbackSh ss cs ds
  | _, cs, _ => cs

/-- `ContainerList::invalidate` (on success `resize` invalidates the whole
subtree): set the `invalidated` flag of every leaf. -/
def invalidateSh : Shape → ContainerChild → ContainerChild
  | Shape.comp, ContainerChild.component c => ContainerChild.component c.invalidate
  | Shape.cont ss, ContainerChild.container f cs =>
    ContainerChild.container f (invalidateListSh ss cs)
  | _, c => c

/-- `invalidate` folded over a child list. -/
def invalidateListSh : Shape → List ContainerChild → List ContainerChild
  | Shape.cons s ss, c :: cs => invalidateSh s c :: invalidateListSh ss cs
  | _, cs => cs

end

/-- `ComponentBase::resize` of a child tree (entry point: instantiates the
shape index with the tree's own shape). -/
def childResize (c : ContainerChild) (w h : Nat) : ContainerChild × Option ResizeError :=
  resizeSh (shapeOf c) c w h

/-- A `ContainerList` is its fields plus its ordered children. -/
abbrev ContainerList := ContainerFields × List ContainerChild

/-- `ContainerList::new`. -/
def ContainerList.new (name : String) (orientation : Direction)
    (resizable : Bool) (width height : Nat) : ContainerList :=
  (⟨name, orientation, resizable, ResizeDrag.none, width, height⟩, [])

/-- `ContainerList::resize` on a root container. -/
def ContainerList.resize (l : ContainerList) (w h : Nat) :
    ContainerList × Option ResizeError :=
  match resizeSh (Shape.cont (shapeOfList l.2)) (ContainerChild.container l.1 l.2) w h with
  | (ContainerChild.container f' cs', e) => ((f', cs'), e)
  | (_, e) => (l, e)  -- unreachable: `resizeSh` preserves the constructor

/-- `ContainerList::add_component`: push the child, then re-run `resize` with
the current dimensions. -/
def ContainerList.add_component (l : ContainerList) (c : Component) :
    ContainerList × Option ResizeError :=
  ContainerList.resize (l.1, l.2 ++ [ContainerChild.component c]) l.1.width l.1.height

/-- `ContainerList::add_container`: push the nested container, then re-run
`resize` with the current dimensions. -/
def ContainerList.add_container (l : ContainerList) (child : ContainerList) :
    ContainerList × Option ResizeError :=
  ContainerList.resize (l.1, l.2 ++ [ContainerChild.container child.1 child.2])
    l.1.width l.1.height

mutual

/-- A per-leaf observation `g` collected over all leaves of a child tree in
depth-first order (instantiated below for focus values and fixed-axis
extents). -/
def leavesMapChild {α : Type} (g : Component → α) : ContainerChild → List α
  | ContainerChild.component c => [g c]
  | ContainerChild.container _ cs => leavesMapList g cs

/-- The observation collected over a child list. -/
def leavesMapList {α : Type} (g : Component → α) : List ContainerChild → List α
  | [] => []
  | c :: cs => leavesMapChild g c ++ leavesMapList g cs

end

/-- The focus values of all leaves of a child tree, in depth-first order
(observation function for whole-tree focus preservation). -/
def focusesChild : ContainerChild → List Focus :=
  leavesMapChild fun c => c.focus

/-- The focus values of all leaves under a child list. -/
def focusesList : List ContainerChild → List Focus :=
  leavesMapList fun c => c.focus

/-- For every leaf of a child tree, in depth-first order, its fixed-axis
extents: `(width if fixed_width, height if fixed_height)` (observation
function for fixed immunity). -/
def fixedMarksChild : ContainerChild → List (Option Nat × Option Nat) :=
  leavesMapChild fun c =>
    (if c.fixed_width then some c.width else Option.none,
     if c.fixed_height then some c.height else Option.none)

/-- Fixed-axis extents of all leaves under a child list. -/
def fixedMarksList : List ContainerChild → List (Option Nat × Option Nat) :=
  leavesMapList fun c =>
    (if c.fixed_width then some c.width else Option.none,
     if c.fixed_height then some c.height else Option.none)

/-- Sum of the children's extents along the layout axis. -/
def sumAxis (orient : Direction) (cs : List ContainerChild) : Nat :=
  (cs.map (axisExtent orient)).sum

mutual

/-- The number of leaves of a child tree whose focus is `Focus` or
`PartialFocus` (observation function for focus exclusivity). -/
def focusedCountChild : ContainerChild → Nat
  | ContainerChild.component c =>
    match c.focus with
    | Focus.none => 0
    | _ => 1
  | ContainerChild.container _ cs => focusedCountList cs

/-- Focused-leaf count of a child list. -/
def focusedCountList : List ContainerChild → Nat
  | [] => 0
  | c :: cs => focusedCountChild c + focusedCountList cs

end

/-- `crossSize`: the requested extent along the cross axis. -/
def crossSize (orient : Direction) (w h : Nat) : Nat :=
  match orient with
  | Direction.horizontal => h
  | Direction.vertical => w

/-- `c'` agrees with `c` on dimensions and fixed flags (the relation
preserved by `invalidate`, which only touches redraw flags). -/
def presDims (c c' : ContainerChild) : Prop :=
  c'.getWidth = c.getWidth ∧ c'.getHeight = c.getHeight ∧
  childFixedWidth c' = childFixedWidth c ∧ childFixedHeight c' = childFixedHeight c

/-- The persistent fields of a component that any sequence of
`Component::resize` calls leaves unchanged, plus its fixed-axis extents. -/
def compPers (comp st : Component) : Prop :=
  st.name = comp.name ∧ st.border_width = comp.border_width ∧
  st.fixed_width = comp.fixed_width ∧ st.fixed_height = comp.fixed_height ∧
  st.focus = comp.focus ∧
  (st.fixed_width = true → st.width = comp.width) ∧
  (st.fixed_height = true → st.height = comp.height)

/-- The final state update of `handle_resize`: keep the drag, refresh the
recorded mouse offset. -/
def ResizeDrag.withOffset : ResizeDrag → Nat → ResizeDrag
  | ResizeDrag.leftTop _ ci, off => ResizeDrag.leftTop off ci
  | ResizeDrag.rightBottom _ ci, off => ResizeDrag.rightBottom off ci
  | ResizeDrag.none, _ => ResizeDrag.none

/-- A child's requested `(width, height)` when dragged to the new extent `n`
along the layout axis (cross axis kept at the current extent). -/
def axisResizeDims (orient : Direction) (c : ContainerChild) (n : Nat) :
    Nat × Nat :=
  match orient with
  | Direction.horizontal => (n, c.getHeight)
  | Direction.vertical => (c.getWidth, n)

/-- A placeholder child for the (panicking, hence unreachable) out-of-bounds
index accesses of `handle_resize`. -/
def dfltChild : ContainerChild := ContainerChild.component (Component.new "" 0)

/-- The two in-order child resizes of a drag step: the shrinking side `iS`
first (aborting the drag on failure, keeping the post-state), then the
growing side `iG`, whose failure is an `assert_eq!` panic (`Option.none`). -/
def dragResizePair (f : ContainerFields) (cs : List ContainerChild) (next : Nat)
    (iS : Nat) (dS : Nat × Nat) (iG : Nat) (dG : Nat × Nat) :
    Option (ContainerFields × List ContainerChild) :=
  match childResize (cs.getD iS dfltChild) dS.1 dS.2 with
  | (cS, some _) => some ({ f with resizeState := ResizeDrag.none }, cs.set iS cS)
  | (cS, Option.none) =>
    let cs₁ := cs.set iS cS
    match childResize (cs₁.getD iG dfltChild) dG.1 dG.2 with
    | (_, some _) => Option.none
    | (cG, Option.none) =>
      some ({ f with resizeState := f.resizeState.withOffset next }, cs₁.set iG cG)

/-- The common body of `handle_resize` once the affected indices `index0 <
index1` and the drag `delta` are known (`src/container/list.rs` lines
264–347): leave everything untouched if either neighbor is fixed along the
layout axis (the source `return`s **without** clearing the drag state); abort
the drag (state := `None`) if either resulting extent would be ≤ 0 along the
axis; return unchanged on a zero delta; otherwise resize the shrinking
neighbor first and the growing neighbor second, and refresh the recorded
mouse offset.  `Option.none` models a panic (out-of-bounds child index, or
the `assert_eq!` on the growing resize). -/
def handleResizeCore (f : ContainerFields) (cs : List ContainerChild)
    (next : Nat) (orientation : Direction) (index0 index1 : Nat)
    (delta : Int) : Option (ContainerFields × List ContainerChild) :=
  if cs.length ≤ index1 then Option.none
  else
    let c0 := cs.getD index0 dfltChild
    let c1 := cs.getD index1 dfltChild
    if axisFixed orientation c0 || axisFixed orientation c1 then
      some (f, cs)
    else
      let e0 : Int := (axisExtent orientation c0 : Int) + delta
      let e1 : Int := (axisExtent orientation c1 : Int) - delta
      if e0 ≤ 0 ∨ e1 ≤ 0 then
        some ({ f with resizeState := ResizeDrag.none }, cs)
      else
        let dims0 := axisResizeDims orientation c0 e0.toNat
        let dims1 := axisResizeDims orientation c1 e1.toNat
        if delta = 0 then some (f, cs)
        else if delta < 0 then
          dragResizePair f cs next index0 dims0 index1 dims1
        else
          dragResizePair f cs next index1 dims1 index0 dims0

/-- `ContainerList::handle_resize` (`src/container/list.rs` lines 233–348).
A non-resizable container or a non-left-drag event clears the drag state; an
idle state ignores the event; otherwise the dragged border's neighbor
indices are `(child_index - 1, child_index)` for `LeftTop` (a `usize`
underflow panic when `child_index = 0`, modelled as `Option.none`) and
`(child_index, child_index + 1)` for `RightBottom`, and the drag delta is
`mouse_offset_next - mouse_offset` as `i16`. -/
def handle_resize (f : ContainerFields) (cs : List ContainerChild)
    (mouse_offset_next : Nat) (orientation : Direction)
    (kind : MouseEventKind) : Option (ContainerFields × List ContainerChild) :=
  if ¬(f.resizable = true ∧ kind = MouseEventKind.drag MouseButton.left) then
    some ({ f with resizeState := ResizeDrag.none }, cs)
  else
    match f.resizeState with
    | ResizeDrag.none => some (f, cs)
    | ResizeDrag.leftTop mo ci =>
      if ci = 0 then Option.none
      else
        handleResizeCore f cs mouse_offset_next orientation (ci - 1) ci
          ((mouse_offset_next : Int) - (mo : Int))
    | ResizeDrag.rightBottom mo ci =>
      handleResizeCore f cs mouse_offset_next orientation ci (ci + 1)
        ((mouse_offset_next : Int) - (mo : Int))

/-- `str::split_once` at the first occurrence of a separator character,
modelled by structural recursion on the character list: `some (before, after)`
when the character occurs, `none` otherwise. -/
def splitOnceChars (sep : Char) : List Char → Option (List Char × List Char)
  | [] => Option.none
  | c :: cs =>
    if c = sep then some ([], cs)
    else
      match splitOnceChars sep cs with
      | some (b, a) => some (c :: b, a)
      | Option.none => Option.none

/-- The `(before, after)` head/tail split of a dotted path, from
`src/container/search.rs` lines 155-159: `path.split_once(\x27.\x27)` giving
`(before, Some after)` at the first dot, `(path, None)` when there is none. -/
def split_once (path : String) : String × Option String :=
  match splitOnceChars (Char.ofNat 46) path.data with
  | some (b, a) => (⟨b⟩, some ⟨a⟩)
  | Option.none => (path, Option.none)

mutual

/-- The recursive `child.search_name(after)` call of `search.rs` line 171 on
a name-matching container child, indexed by the child shape; `none` on a
component (unreachable: only called on containers). -/
def searchNameChildSh : Shape → ContainerChild → String →
    Option (ContainerChild × ComponentPos)
  | Shape.cont s, ContainerChild.container f cs, path =>
    searchNameGoSh s f.orientation (split_once path).1 (split_once path).2
      cs ⟨0, 0⟩
  | _, _, _ => Option.none

/-- The search loop of `search_name` (`src/container/search.rs` lines
160-178), indexed by the `Shape` of the child list for structural recursion.
The `get_positions` precomputation of cumulative child offsets
(`search.rs` lines 53-59 over `get_children_rectangles`, `list.rs` lines
360-376) is fused into the loop as the accumulator `pos`, advanced along the
layout axis by each child's extent.  A child whose name misses `before` is
skipped; a name-matching `Component` is returned at once (whatever remains of
the path); a name-matching container recurses on `after`, skipping to later
children when `after` is exhausted or the recursion fails. -/
def searchNameGoSh : Shape → Direction → String → Option String →
    List ContainerChild → ComponentPos → Option (ContainerChild × ComponentPos)
  | Shape.cons sh st, orient, before, after, c :: cs, pos =>
    let next : ComponentPos :=
      match orient with
      | Direction.horizontal => ⟨pos.x + c.getWidth, pos.y⟩
      | Direction.vertical => ⟨pos.x, pos.y + c.getHeight⟩
    if before = c.getName then
      match c with
      | ContainerChild.component _ => some (c, pos)
      | ContainerChild.container _ _ =>
        (match after with
         | some after2 =>
           (match searchNameChildSh sh c after2 with
            | some (child, p) => some (child, pos.add p)
            | Option.none => searchNameGoSh st orient before after cs next)
         | Option.none => searchNameGoSh st orient before after cs next)
    else searchNameGoSh st orient before after cs next
  | _, _, _, _, _, _ => Option.none

end

/-- `search_name` from `src/container/search.rs` lines 154-179, on the
`ContainerList` model: split the path at the first dot and run the child
loop from offset `(0, 0)`. -/
def ContainerList.search_name (l : ContainerList) (path : String) :
    Option (ContainerChild × ComponentPos) :=
  searchNameGoSh (shapeOfList l.2) l.1.orientation (split_once path).1
    (split_once path).2 l.2 ⟨0, 0⟩

/-- The cumulative offset of child `i` in `get_positions`: the sum of the
earlier children's extents along the layout axis, zero across it. -/
def posAt (orient : Direction) (cs : List ContainerChild) (i : Nat) :
    ComponentPos :=
  match orient with
  | Direction.horizontal => ⟨sumAxis Direction.horizontal (cs.take i), 0⟩
  | Direction.vertical => ⟨0, sumAxis Direction.vertical (cs.take i)⟩

/-- Prefix a search result's path with the next child index (the loop
counter `i` of `search_focused` / `search_position`): a result found after
skipping the head child sits one index later. -/
def bumpPath {α : Type} : Option (List Nat × α) → Option (List Nat × α)
  | some (j :: rest, a) => some ((j + 1) :: rest, a)
  | r => r

mutual

/-- The recursive `child.search_focused()` call of `search.rs` line 71 on a
container child, indexed by the child shape. -/
def searchFocusedChildSh : Shape → ContainerChild →
    Option (List Nat × (ComponentPos × Component))
  | Shape.cont s, ContainerChild.container f cs =>
    searchFocusedGoSh s f.orientation cs ⟨0, 0⟩
  | _, _ => Option.none

/-- The loop of `search_focused` (`src/container/search.rs` lines 62-83),
indexed by the `Shape` of the child list.  As with the name search, the
`get_positions` offsets are fused in as the accumulator `pos`.  The result is
the first leaf with `Focus` or `PartialFocus`, as the path of child indices
leading to it plus its absolute offset and the leaf itself (`handle_key`
binds the `Focus` and `PartialFocus` variants of `FocusResult` identically,
so the model collapses the distinction). -/
def searchFocusedGoSh : Shape → Direction → List ContainerChild →
    ComponentPos → Option (List Nat × (ComponentPos × Component))
  | Shape.cons sh st, orient, c :: cs, pos =>
    let next : ComponentPos :=
      match orient with
      | Direction.horizontal => ⟨pos.x + c.getWidth, pos.y⟩
      | Direction.vertical => ⟨pos.x, pos.y + c.getHeight⟩
    (match c with
     | ContainerChild.component comp =>
       (match comp.focus with
        | Focus.none => bumpPath (searchFocusedGoSh st orient cs next)
        | _ => some ([0], pos, comp))
     | ContainerChild.container _ _ =>
       (match searchFocusedChildSh sh c with
        | some (p, q, comp) => some (0 :: p, pos.add q, comp)
        | Option.none => bumpPath (searchFocusedGoSh st orient cs next)))
  | _, _, _, _ => Option.none

end

mutual

/-- The recursive `child.search_position(new_pos)` call of `search.rs` line
120 on a container child, indexed by the child shape. -/
def searchPositionChildSh : Shape → ContainerChild → ComponentPos →
    Option (List Nat × Component)
  | Shape.cont s, ContainerChild.container f cs, pos =>
    searchPositionGoSh s f.orientation cs pos ⟨0, 0⟩
  | _, _, _ => Option.none

/-- The loop of `search_position` (`src/container/search.rs` lines 108-129),
indexed by the `Shape` of the child list: skip children whose rectangle
misses `pos`; on the hit child, a `Component` is the result, and a container
is searched at `pos` minus its offset — a failed nested search returns `None`
for the whole call (line 123), it does not continue with later children.
The result is the path of child indices to the leaf plus the leaf
(`handle_key` ignores the returned offset, so the model omits it). -/
def searchPositionGoSh : Shape → Direction → List ContainerChild →
    ComponentPos → ComponentPos → Option (List Nat × Component)
  | Shape.cons sh st, orient, c :: cs, pos, off =>
    let next : ComponentPos :=
      match orient with
      | Direction.horizontal => ⟨off.x + c.getWidth, off.y⟩
      | Direction.vertical => ⟨off.x, off.y + c.getHeight⟩
    if intersects_rect pos ⟨off.x, off.y, c.getWidth, c.getHeight⟩ then
      match c with
      | ContainerChild.component comp => some ([0], comp)
      | ContainerChild.container _ _ =>
        (match searchPositionChildSh sh c (pos.sub off) with
         | some (p, comp) => some (0 :: p, comp)
         | Option.none => Option.none)
    else bumpPath (searchPositionGoSh st orient cs pos next)
  | _, _, _, _, _ => Option.none

end

mutual

/-- The leaf at a path of child indices (the model's name for what a `&mut
Component` returned by a search designates), indexed by shape. -/
def getCompChildSh : Shape → ContainerChild → List Nat → Option Component
  | Shape.comp, ContainerChild.component comp, [] => some comp
  | Shape.cont s, ContainerChild.container _ cs, path => getCompListSh s cs path
  | _, _, _ => Option.none

/-- The leaf at a path under a child list: the head index selects the child,
the rest of the path descends into it. -/
def getCompListSh : Shape → List ContainerChild → List Nat → Option Component
  | Shape.cons sh _, c :: _, 0 :: rest => getCompChildSh sh c rest
  | Shape.cons _ st, _ :: cs, (i + 1) :: rest => getCompListSh st cs (i :: rest)
  | _, _, _ => Option.none

end

mutual

/-- Rewrite the leaf at a path through `g` (the model of a mutation through
a `&mut Component`); anything off-path — including an invalid path — is
untouched. -/
def updateCompChildSh (g : Component → Component) :
    Shape → ContainerChild → List Nat → ContainerChild
  | Shape.comp, ContainerChild.component comp, [] =>
    ContainerChild.component (g comp)
  | Shape.cont s, ContainerChild.container f cs, path =>
    ContainerChild.container f (updateCompListSh g s cs path)
  | _, c, _ => c

/-- Rewrite the leaf at a path under a child list through `g`. -/
def updateCompListSh (g : Component → Component) :
    Shape → List ContainerChild → List Nat → List ContainerChild
  | Shape.cons sh _, c :: cs, 0 :: rest => updateCompChildSh g sh c rest :: cs
  | Shape.cons _ st, c :: cs, (i + 1) :: rest =>
    c :: updateCompListSh g st cs (i :: rest)
  | _, cs, _ => cs

end

/-- `find_next_pos` from `src/container/list.rs` lines 14-41: the coordinate
just beyond the exited border, or `None` at the container's edge. -/
def find_next_pos (pos : ComponentPos) (border : Border)
    (component_width component_height container_width container_height : Nat) :
    Option ComponentPos :=
  match border with
  | Border.top =>
    if 0 < pos.y then some ⟨pos.x, pos.y - 1⟩ else Option.none
  | Border.bottom =>
    if pos.y + component_height < container_height then
      some ⟨pos.x, pos.y + component_height⟩
    else Option.none
  | Border.left =>
    if 0 < pos.x then some ⟨pos.x - 1, pos.y⟩ else Option.none
  | Border.right =>
    if pos.x + component_width < container_width then
      some ⟨pos.x + component_width, pos.y⟩
    else Option.none

/-- `ContainerList::handle_key` (`src/container/list.rs` lines 444-494).
The (partially) focused leaf, if any, handles the key; if it reports an exit
border, the neighbour across that border (by `find_next_pos` plus
`search_position`) — or, at the container's edge, the leaf itself — becomes
`PartialFocus`.  With no focused leaf, one of Enter/Up/Down/Left/Right
partially focuses the leaf at the origin.  The `Option<Border>` return is
`None` on every path and is dropped from the model. -/
def ContainerList.handle_key (l : ContainerList) (e : KeyEvent) :
    ContainerList :=
  match searchFocusedGoSh (shapeOfList l.2) l.1.orientation l.2 ⟨0, 0⟩ with
  | some (path, pos, comp) =>
    let pr := Component.handle_key comp e
    let cs1 := updateCompListSh (fun _ => pr.1) (shapeOfList l.2) l.2 path
    (match pr.2 with
     | Option.none => (l.1, cs1)
     | some border =>
       match find_next_pos pos border pr.1.width pr.1.height l.1.width
           l.1.height with
       | Option.none =>
         (l.1, updateCompListSh (fun c => c.set_focus Focus.partialFocus)
           (shapeOfList cs1) cs1 path)
       | some next_pos =>
         match searchPositionGoSh (shapeOfList cs1) l.1.orientation cs1
             next_pos ⟨0, 0⟩ with
         | some (p2, _) =>
           (l.1, updateCompListSh (fun c => c.set_focus Focus.partialFocus)
             (shapeOfList cs1) cs1 p2)
         | Option.none => (l.1, cs1))
  | Option.none =>
    match e.code with
    | KeyCode.enter | KeyCode.up | KeyCode.down | KeyCode.left
    | KeyCode.right =>
      (match searchPositionGoSh (shapeOfList l.2) l.1.orientation l.2 ⟨0, 0⟩
          ⟨0, 0⟩ with
       | some (p2, _) =>
         (l.1, updateCompListSh (fun c => c.set_focus Focus.partialFocus)
           (shapeOfList l.2) l.2 p2)
       | Option.none => l)
    | _ => l

/-- A sequence of key events dispatched through the root's `handle_key`. -/
def applyKeys (l : ContainerList) (es : List KeyEvent) : ContainerList :=
  es.foldl ContainerList.handle_key l

/-- Weight of a focus value in the focused-leaf count. -/
def focusWeight : Focus → Nat
  | Focus.none => 0
  | _ => 1

/-! ## Basic lemmas about `Component` operations -/

theorem Component.resize_pres (c : Component) (w h : Nat) :
    (Component.resize c w h).1.name = c.name ∧
    (Component.resize c w h).1.border_width = c.border_width ∧
    (Component.resize c w h).1.fixed_width = c.fixed_width ∧
    (Component.resize c w h).1.fixed_height = c.fixed_height ∧
    (Component.resize c w h).1.focus = c.focus := by
  simp only [Component.resize, Component.invalidate]
  split_ifs <;> simp

theorem Component.resize_fixed_width (c : Component) (w h : Nat)
    (hfw : c.fixed_width = true) : (Component.resize c w h).1.width = c.width := by
  simp only [Component.resize, Component.invalidate]
  split_ifs <;> simp_all

theorem Component.resize_fixed_height (c : Component) (w h : Nat)
    (hfh : c.fixed_height = true) : (Component.resize c w h).1.height = c.height := by
  simp only [Component.resize, Component.invalidate]
  split_ifs <;> simp_all

theorem Component.resize_err (c : Component) (w h : Nat)
    (he : (Component.resize c w h).2.isSome) : (Component.resize c w h).1 = c := by
  simp only [Component.resize, Component.invalidate] at *
  split_ifs at * <;> simp_all

/-- `Component::resize` succeeds exactly when both dimensions are at least
the minimum `max(2 * border_width, 1)`. -/
theorem Component.resize_err_iff (c : Component) (w h : Nat) :
    (Component.resize c w h).2.isSome ↔
      (w < Nat.max (c.border_width * 2) 1 ∨ h < Nat.max (c.border_width * 2) 1) := by
  simp only [Component.resize]
  split_ifs <;> simp_all

theorem Component.resize_ok_width (c : Component) (w h : Nat)
    (hok : (Component.resize c w h).2 = Option.none) :
    (Component.resize c w h).1.width = if c.fixed_width then c.width else w := by
  simp only [Component.resize, Component.invalidate] at *
  split_ifs at * <;> simp_all

theorem Component.resize_ok_height (c : Component) (w h : Nat)
    (hok : (Component.resize c w h).2 = Option.none) :
    (Component.resize c w h).1.height = if c.fixed_height then c.height else h := by
  simp only [Component.resize, Component.invalidate] at *
  split_ifs at * <;> simp_all

/-! ## C9, C5, C10: claims about `Component::resize`, `handle_key`,
`handle_mouse` -/

/-- C9 (confirmed): `Component::resize(width, height)` returns a
`ResizeError` exactly when `width` or `height` is smaller than
`max(2 × border_thickness, 1)`, and the returned error carries the
component's name, the attempted width and height, and the border
thickness. -/
theorem C9_component_resize_error (c : Component) (w h : Nat) :
    (Component.resize c w h).2 =
      if w < Nat.max (c.border_width * 2) 1 ∨ h < Nat.max (c.border_width * 2) 1 then
        some ⟨c.name, w, h, c.border_width⟩
      else Option.none := by
  simp only [Component.resize]
  split_ifs <;> simp_all

/-- C5 counterexample: on a fresh component (`Focus = None`), `handle_key`
with Enter does **not** set `PartialFocus` (it sets full `Focus`,
`src/component.rs` line 212). -/
theorem C5_counterexample :
    (Component.new "a" 1).focus = Focus.none ∧
    (Component.handle_key (Component.new "a" 1) ⟨KeyCode.enter⟩).1.focus ≠
      Focus.partialFocus := by
  constructor
  · rfl
  · decide

/-- C5 (corrected): when `Component::handle_key` is called on a component
whose focus is `None` and the key is Enter, the focus becomes full `Focus`
(not `PartialFocus`), and no exit border is returned. -/
theorem C5_none_enter_focuses (c : Component) (e : KeyEvent)
    (hf : c.focus = Focus.none) (he : e.code = KeyCode.enter) :
    (Component.handle_key c e).1.focus = Focus.focus ∧
    (Component.handle_key c e).2 = Option.none := by
  unfold Component.handle_key Component.set_focus
  rw [hf, he]
  simp

/-- Witness for C5: the corrected claim at a concrete fresh component. -/
theorem C5_none_enter_focuses_witness :
    (Component.handle_key (Component.new "w5" 1) ⟨KeyCode.enter⟩).1.focus = Focus.focus ∧
    (Component.handle_key (Component.new "w5" 1) ⟨KeyCode.enter⟩).2 = Option.none :=
  C5_none_enter_focuses (Component.new "w5" 1) ⟨KeyCode.enter⟩ rfl rfl

/-- C10 counterexample: a component with `width = 10`, `height = 0`,
`border_width = 1` has `height < border_width`, and the claim asserts the
hit-test underflows for any non-`Moved` event with `x ≥ 1, y ≥ 1` — but at
`x = 9, y = 1` the short-circuited conjunct `x < width - border_width` is
already false, `height - border_width` is never evaluated, and the call
completes normally. -/
theorem C10_counterexample :
    (Component.handle_mouse
      ⟨"n", 10, 0, false, false, 1, true, Focus.none⟩ 9 1
      (some (MouseEventKind.down MouseButton.left))).isSome = true := by
  decide

/-- C10 (corrected): for a `Some` kind other than `Moved`, the interior
hit-test of `Component::handle_mouse` underflows a `u16` subtraction (a
debug-build panic, `Option.none` in the model) **iff** `x ≥ border_width`,
`y ≥ border_width`, and either `width < border_width` (the subtraction
`width - border_width` underflows — in particular for a fresh, never-resized
0×0 component with `border_width ≥ 1`), or `width ≥ border_width` but
`x < width - border_width` and `height < border_width` (the subtraction
`height - border_width` underflows).  Consequently the call is total
whenever `width ≥ border_width` and `height ≥ border_width`, but — contrary
to the claim — `height < border_width` alone does not panic when
`x ≥ width - border_width`. -/
theorem C10_handle_mouse_underflow (c : Component) (x y : Nat)
    (k : MouseEventKind) (hk : k ≠ MouseEventKind.moved) :
    Component.handle_mouse c x y (some k) = Option.none ↔
      (c.border_width ≤ x ∧ c.border_width ≤ y ∧
        (c.width < c.border_width ∨
          (c.border_width ≤ c.width ∧ x < c.width - c.border_width ∧
            c.height < c.border_width))) := by
  unfold Component.handle_mouse
  cases k with
  | moved => exact absurd rfl hk
  | down b =>
    cases b <;> simp only [ge_iff_le, Bool.and_eq_true, decide_eq_true_eq] <;>
      split <;> simp_all
  | drag b =>
    cases b <;> simp only [ge_iff_le, Bool.and_eq_true, decide_eq_true_eq] <;>
      split <;> simp_all
  | up b =>
    cases b <;> simp only [ge_iff_le, Bool.and_eq_true, decide_eq_true_eq] <;>
      split <;> simp_all
  | scrollDown =>
    simp only [ge_iff_le, Bool.and_eq_true, decide_eq_true_eq]
    split <;> simp_all
  | scrollUp =>
    simp only [ge_iff_le, Bool.and_eq_true, decide_eq_true_eq]
    split <;> simp_all

/-- Witness for C10: the corrected claim at a fresh 0×0 component with
border 1, where a left-button press at `(1, 1)` underflows. -/
theorem C10_handle_mouse_underflow_witness :
    Component.handle_mouse (Component.new "w10" 1) 1 1
        (some (MouseEventKind.down MouseButton.left)) = Option.none ↔
      ((Component.new "w10" 1).border_width ≤ 1 ∧
        (Component.new "w10" 1).border_width ≤ 1 ∧
        ((Component.new "w10" 1).width < (Component.new "w10" 1).border_width ∨
          ((Component.new "w10" 1).border_width ≤ (Component.new "w10" 1).width ∧
            1 < (Component.new "w10" 1).width - (Component.new "w10" 1).border_width ∧
            (Component.new "w10" 1).height < (Component.new "w10" 1).border_width))) :=
  C10_handle_mouse_underflow (Component.new "w10" 1) 1 1
    (MouseEventKind.down MouseButton.left) (by decide)

/-! ## Arithmetic of the sizing pass -/

theorem assignFixed_eq : ∀ (fs : List Nat) (size t t' : Nat),
    assignFixed fs size t = some t' → t' = t + fs.sum ∧ (t ≤ size → t' ≤ size) := by
  intro fs
  induction fs with
  | nil =>
    intro size t t' h
    rw [assignFixed] at h
    simp only [Option.some_inj] at h
    subst h
    simp
  | cons f fs ih =>
    intro size t t' h
    rw [assignFixed] at h
    split at h
    · exact absurd h (by simp)
    · obtain ⟨h1, h2⟩ := ih size (t + f) t' h
      refine ⟨by simp [h1]; ring, fun _ => h2 (by omega)⟩

theorem assignRatio_eq : ∀ (rs : List (Nat × Nat)) (size t : Nat) (vs : List Nat),
    assignRatio rs size t = some vs →
      vs.length = rs.length ∧ (rs ≠ [] → t ≤ size ∧ vs.sum + t = size) := by
  intro rs
  induction rs with
  | nil => intro size t vs h; simp [assignRatio] at h; simp [h]
  | cons r rs ih =>
    intro size t vs h
    cases rs with
    | nil =>
      rw [assignRatio] at h
      split at h
      · exact absurd h (by simp)
      · rename_i hv
        simp only [Option.some_inj] at h
        subst h
        refine ⟨rfl, fun _ => ⟨by omega, by simp; omega⟩⟩
    | cons r2 rs2 =>
      obtain ⟨n, d⟩ := r
      have heq : assignRatio ((n, d) :: r2 :: rs2) size t =
          (if ratioShare n d size = 0 then Option.none
           else
             match assignRatio (r2 :: rs2) size (t + ratioShare n d size) with
             | some vs => some (ratioShare n d size :: vs)
             | Option.none => Option.none) := rfl
      rw [heq] at h
      split at h
      · exact absurd h (by simp)
      · rename_i hv
        split at h
        · rename_i vs2 hrec
          simp only [Option.some_inj] at h
          subst h
          obtain ⟨hl, hs⟩ := ih size (t + ratioShare n d size) vs2 hrec
          obtain ⟨hle, hsum⟩ := hs (List.cons_ne_nil _ _)
          exact ⟨by simp [hl], fun _ => ⟨by omega, by simp; omega⟩⟩
        · exact absurd h (by simp)

theorem scatter_length : ∀ (ks : List SizingConstraint) (vs : List Nat),
    (scatter ks vs).length = ks.length := by
  intro ks
  induction ks with
  | nil => intro vs; simp [scatter]
  | cons k ks ih =>
    intro vs
    cases k with
    | fixed f => simp [scatter, ih]
    | ratio n d => cases vs <;> simp [scatter, ih]

theorem scatter_sum : ∀ (ks : List SizingConstraint) (vs : List Nat),
    vs.length = (ratioParts ks).length →
    (scatter ks vs).sum = (fixedParts ks).sum + vs.sum := by
  intro ks
  induction ks with
  | nil => intro vs h; simp [ratioParts] at h; simp [scatter, fixedParts, h]
  | cons k ks ih =>
    intro vs h
    cases k with
    | fixed f =>
      simp only [ratioParts] at h
      simp only [scatter, fixedParts, List.sum_cons, ih vs h]
      ring
    | ratio n d =>
      cases vs with
      | nil => simp [ratioParts] at h
      | cons v vs =>
        simp only [ratioParts, List.length_cons, Nat.add_right_cancel_iff] at h
        simp only [scatter, List.sum_cons, ih vs h, fixedParts]
        ring

/-- The ratio positions of the normalised constraints are exactly the
non-fixed children, so a non-fixed child yields a nonempty `ratioParts`. -/
theorem ratioParts_map_ne (anyZ : Bool) (num total : Nat) (orient : Direction) :
    ∀ (cs : List ContainerChild), (∃ c ∈ cs, axisFixed orient c = false) →
    ratioParts ((cs.map (rawConstraint orient)).map
      (normalizeConstraint anyZ num total)) ≠ [] := by
  intro cs
  induction cs with
  | nil => intro h; simp at h
  | cons c cs ih =>
    intro h
    rcases h with ⟨c0, hmem, hfix⟩
    rcases List.mem_cons.mp hmem with h0 | h0
    · subst h0
      have hraw : ∃ n d, rawConstraint orient c0 = SizingConstraint.ratio n d := by
        cases orient <;>
          simp only [rawConstraint, axisFixed] at hfix ⊢ <;>
          simp [hfix]
      obtain ⟨n, d, hraw⟩ := hraw
      simp only [List.map_cons, hraw, normalizeConstraint]
      split <;> simp [ratioParts]
    · have := ih ⟨c0, h0, hfix⟩
      cases hc : rawConstraint orient c with
      | fixed f => simpa [hc, normalizeConstraint, ratioParts] using this
      | ratio n d =>
        simp only [List.map_cons, hc, normalizeConstraint]
        split <;> simp [ratioParts]

/-- The ratio positions of the normalised constraints are exactly the
non-fixed children, so a non-fixed child yields a nonempty `ratioParts`. -/
theorem ratioParts_gsc_ne (orient : Direction) (cs : List ContainerChild)
    (h : ∃ c ∈ cs, axisFixed orient c = false) :
    ratioParts (get_sizing_constraints orient cs) ≠ [] :=
  ratioParts_map_ne _ _ _ orient cs h

/-- On success, `calculate_sizes` returns the scatter of some ratio
assignment: one size per constraint, summing to exactly `size` when at least
one constraint is a ratio. -/
theorem calculate_sizes_spec (ks : List SizingConstraint) (size : Nat)
    (sizes : List Nat) (h : calculate_sizes ks size = some sizes) :
    ∃ vs, sizes = scatter ks vs ∧ vs.length = (ratioParts ks).length ∧
      sizes.length = ks.length ∧ (ratioParts ks ≠ [] → sizes.sum = size) := by
  rw [calculate_sizes] at h
  split at h
  · exact absurd h (by simp)
  · rename_i fixedTotal hfix
    split at h
    · exact absurd h (by simp)
    · rename_i vs hratio
      simp only [Option.some_inj] at h
      subst h
      obtain ⟨hft, hfle⟩ := assignFixed_eq _ _ _ _ hfix
      obtain ⟨hvl, hvs⟩ := assignRatio_eq _ _ _ _ hratio
      refine ⟨vs, rfl, hvl, scatter_length _ _, fun hne => ?_⟩
      obtain ⟨-, hvsum⟩ := hvs (by simpa [hvl] using hne)
      have hle : fixedTotal ≤ size := hfle (Nat.zero_le _)
      rw [scatter_sum _ _ hvl]
      omega

/-- At every position where the child is fixed along the layout axis, the
scattered size vector carries exactly the child's current extent. -/
theorem scatter_gsc_fixed (anyZ : Bool) (num total : Nat)
    (orient : Direction) :
    ∀ (cs : List ContainerChild) (vs : List Nat),
    List.Forall₂ (fun c s => axisFixed orient c = true → s = axisExtent orient c)
      cs (scatter ((cs.map (rawConstraint orient)).map
        (normalizeConstraint anyZ num total)) vs) := by
  intro cs
  induction cs with
  | nil => intro vs; simp [scatter]
  | cons c cs ih =>
    intro vs
    by_cases hfix : axisFixed orient c = true
    · have hraw : rawConstraint orient c =
          SizingConstraint.fixed (axisExtent orient c) := by
        cases orient <;>
          simp only [rawConstraint, axisFixed, axisExtent] at hfix ⊢ <;>
          simp [hfix]
      simp only [List.map_cons, hraw, normalizeConstraint, scatter]
      exact List.Forall₂.cons (fun _ => rfl) (ih vs)
    · have hraw : ∃ n d, rawConstraint orient c = SizingConstraint.ratio n d := by
        cases orient <;>
          simp only [rawConstraint, axisFixed] at hfix ⊢ <;>
          simp [hfix]
      obtain ⟨n, d, hraw⟩ := hraw
      simp only [List.map_cons, hraw, normalizeConstraint]
      split <;> cases vs <;> simp only [scatter] <;>
        exact List.Forall₂.cons (fun hcontra => absurd hcontra hfix) (ih _)

/-! ## Characterising `childResize` -/

theorem childResize_component (comp : Component) (w h : Nat) :
    childResize (ContainerChild.component comp) w h =
      (ContainerChild.component (Component.resize comp w h).1,
        (Component.resize comp w h).2) := by
  simp [childResize, shapeOf, resizeSh]

theorem childResize_container_ok (f : ContainerFields) (cs : List ContainerChild)
    (w h : Nat)
    (hok : (childResize (ContainerChild.container f cs) w h).2 = Option.none) :
    ∃ f' cs', (childResize (ContainerChild.container f cs) w h).1 =
        ContainerChild.container f' cs' ∧ f'.width = w ∧ f'.height = h := by
  simp only [childResize, shapeOf, resizeSh] at hok ⊢
  split at hok
  · rename_i hwh
    simp only [if_pos hwh]
    exact ⟨f, cs, rfl, hwh.1, hwh.2⟩
  · rename_i hwh
    simp only [if_neg hwh]
    split at hok
    · simp at hok
    · rename_i sizes heq
      split at hok
      · exact ⟨_, _, rfl, rfl, rfl⟩
      · simp at hok

theorem childResize_ok_getWidth (c : ContainerChild) (w h : Nat)
    (hok : (childResize c w h).2 = Option.none)
    (hfix : childFixedWidth c = true → c.getWidth = w) :
    (childResize c w h).1.getWidth = w := by
  cases c with
  | component comp =>
    rw [childResize_component] at hok ⊢
    simp only [ContainerChild.getWidth]
    rw [Component.resize_ok_width comp w h hok]
    split
    · rename_i hfw
      exact hfix (by simpa [childFixedWidth] using hfw)
    · rfl
  | container f cs =>
    obtain ⟨f', cs', heq, hw, -⟩ := childResize_container_ok f cs w h hok
    rw [heq]
    exact hw

theorem childResize_ok_getHeight (c : ContainerChild) (w h : Nat)
    (hok : (childResize c w h).2 = Option.none)
    (hfix : childFixedHeight c = true → c.getHeight = h) :
    (childResize c w h).1.getHeight = h := by
  cases c with
  | component comp =>
    rw [childResize_component] at hok ⊢
    simp only [ContainerChild.getHeight]
    rw [Component.resize_ok_height comp w h hok]
    split
    · rename_i hfh
      exact hfix (by simpa [childFixedHeight] using hfh)
    · rfl
  | container f cs =>
    obtain ⟨f', cs', heq, -, hh⟩ := childResize_container_ok f cs w h hok
    rw [heq]
    exact hh

/-- After a successful resize, a child that is (now) not fixed along the
cross axis has exactly the requested cross extent. -/
theorem childResize_ok_cross (orient : Direction) (c : ContainerChild)
    (w h : Nat) (hok : (childResize c w h).2 = Option.none)
    (hcf : crossFixed orient ((childResize c w h).1) = false) :
    crossExtent orient ((childResize c w h).1) = crossSize orient w h := by
  cases c with
  | component comp =>
    rw [childResize_component] at hok hcf ⊢
    cases orient with
    | horizontal =>
      simp only [crossFixed, childFixedHeight, crossExtent,
        ContainerChild.getHeight, crossSize] at hcf ⊢
      rw [Component.resize_ok_height comp w h hok]
      have hp := (Component.resize_pres comp w h).2.2.2.1
      rw [hp] at hcf
      simp [hcf]
    | vertical =>
      simp only [crossFixed, childFixedWidth, crossExtent,
        ContainerChild.getWidth, crossSize] at hcf ⊢
      rw [Component.resize_ok_width comp w h hok]
      have hp := (Component.resize_pres comp w h).2.2.1
      rw [hp] at hcf
      simp [hcf]
  | container f cs =>
    obtain ⟨f', cs', heq, hw, hh⟩ := childResize_container_ok f cs w h hok
    rw [heq]
    cases orient <;>
      simp [crossExtent, crossSize, ContainerChild.getWidth,
        ContainerChild.getHeight, hw, hh]

/-! ## The sequential child-resize pass -/

theorem resizeSeqSh_ok : ∀ (cs : List ContainerChild) (ps : List (Nat × Nat))
    (cs₁ : List ContainerChild),
    ps.length = cs.length →
    resizeSeqSh (shapeOfList cs) cs ps = (cs₁, Option.none) →
    List.Forall₂ (fun cp c' => childResize cp.1 cp.2.1 cp.2.2 = (c', Option.none))
      (cs.zip ps) cs₁ := by
  intro cs
  induction cs with
  | nil =>
    intro ps cs₁ hl hseq
    rw [List.length_nil, List.length_eq_zero] at hl
    subst hl
    simp only [shapeOfList, resizeSeqSh, Prod.mk.injEq] at hseq
    rw [← hseq.1]
    exact List.Forall₂.nil
  | cons c cs ih =>
    intro ps cs₁ hl hseq
    cases ps with
    | nil => simp at hl
    | cons p ps =>
      simp only [List.length_cons, Nat.add_right_cancel_iff] at hl
      rw [shapeOfList, resizeSeqSh] at hseq
      split at hseq
      · rename_i c₁ hc
        split at hseq
        · rename_i cs₂ e hrec
          simp only [Prod.mk.injEq] at hseq
          obtain ⟨hcs, he⟩ := hseq
          subst he
          rw [← hcs]
          exact List.Forall₂.cons (show childResize c p.1 p.2 = (c₁, Option.none) from hc)
            (ih ps cs₂ hl (by rw [hrec]))
      · rename_i c₁ e hc
        simp at hseq

/-! ## Dimension/flag preservation by `invalidate` -/

theorem presDims_refl (c : ContainerChild) : presDims c c :=
  ⟨rfl, rfl, rfl, rfl⟩

theorem forall2_mem_right {α β : Type} {R : α → β → Prop} :
    ∀ {l : List α} {l' : List β}, List.Forall₂ R l l' → ∀ b ∈ l', ∃ a ∈ l, R a b := by
  intro l l' h
  induction h with
  | nil => intro b hb; simp at hb
  | cons hr _ ih =>
    intro b hb
    rcases List.mem_cons.mp hb with h0 | h0
    · exact ⟨_, List.mem_cons_self _ _, h0 ▸ hr⟩
    · obtain ⟨a, ha, har⟩ := ih b h0
      exact ⟨a, List.mem_cons_of_mem _ ha, har⟩

theorem listFixed_congr : ∀ {cs cs' : List ContainerChild},
    List.Forall₂ presDims cs cs' →
    listFixedWidth cs' = listFixedWidth cs ∧ listFixedHeight cs' = listFixedHeight cs := by
  intro cs cs' h
  induction h with
  | nil => exact ⟨rfl, rfl⟩
  | cons hr _ ih =>
    rename_i c c' cs cs' _
    obtain ⟨-, -, hfw, hfh⟩ := hr
    simp [listFixedWidth, listFixedHeight, hfw, hfh, ih.1, ih.2]

theorem forall2_presDims_map_axis (orient : Direction) :
    ∀ {cs cs' : List ContainerChild}, List.Forall₂ presDims cs cs' →
    cs'.map (axisExtent orient) = cs.map (axisExtent orient) := by
  intro cs cs' h
  induction h with
  | nil => rfl
  | cons hr _ ih =>
    obtain ⟨hw, hh, -, -⟩ := hr
    cases orient <;> simp [axisExtent, hw, hh, ih]

theorem invalidate_pres : ∀ s : Shape,
    (∀ c, presDims c (invalidateSh s c)) ∧
    (∀ cs, List.Forall₂ presDims cs (invalidateListSh s cs)) := by
  intro s
  induction s with
  | comp =>
    constructor
    · intro c
      cases c with
      | component comp =>
        simp [invalidateSh, presDims, Component.invalidate,
          ContainerChild.getWidth, ContainerChild.getHeight,
          childFixedWidth, childFixedHeight]
      | container f cs => exact presDims_refl _
    · intro cs
      exact (List.forall₂_same).mpr fun c _ => presDims_refl c
  | cont ss ih =>
    constructor
    · intro c
      cases c with
      | component comp => exact presDims_refl _
      | container f cs =>
        obtain ⟨hfw, hfh⟩ := listFixed_congr (ih.2 cs)
        exact ⟨rfl, rfl, by simpa [childFixedWidth] using hfw,
          by simpa [childFixedHeight] using hfh⟩
    · intro cs
      exact (List.forall₂_same).mpr fun c _ => presDims_refl c
  | nil =>
    exact ⟨fun c => presDims_refl c,
      fun cs => (List.forall₂_same).mpr fun c _ => presDims_refl c⟩
  | cons s ss ih ihs =>
    constructor
    · intro c
      exact presDims_refl c
    · intro cs
      cases cs with
      | nil => exact List.Forall₂.nil
      | cons c cs =>
        exact List.Forall₂.cons (ih.1 c) (ihs.2 cs)

/-! ## The successful sizing pass, child by child -/

theorem seq_axis_cross (orient : Direction) (w h : Nat) :
    ∀ (cs : List ContainerChild) (sizes : List Nat) (cs₁ : List ContainerChild),
    sizes.length = cs.length →
    resizeSeqSh (shapeOfList cs) cs (pairsOf orient sizes w h) = (cs₁, Option.none) →
    List.Forall₂ (fun c sz => axisFixed orient c = true → sz = axisExtent orient c)
      cs sizes →
    cs₁.map (axisExtent orient) = sizes ∧
    (∀ c' ∈ cs₁, crossFixed orient c' = false →
      crossExtent orient c' = crossSize orient w h) := by
  intro cs
  induction cs with
  | nil =>
    intro sizes cs₁ hl hseq hfa
    have hsz : sizes = [] := List.length_eq_zero.mp (by simpa using hl)
    subst hsz
    simp only [pairsOf, List.map_nil, shapeOfList, resizeSeqSh, Prod.mk.injEq] at hseq
    rw [← hseq.1]
    exact ⟨rfl, by simp⟩
  | cons c cs ih =>
    intro sizes cs₁ hl hseq hfa
    cases sizes with
    | nil => simp at hl
    | cons sz sizes =>
      have hl' : sizes.length = cs.length := by simpa using hl
      cases hfa with
      | cons hfix hfa' =>
        rw [pairsOf, List.map_cons, shapeOfList, resizeSeqSh] at hseq
        split at hseq
        · rename_i c₁ hc
          split at hseq
          · rename_i cs₂ e hrec
            simp only [Prod.mk.injEq] at hseq
            obtain ⟨hcs, he⟩ := hseq
            subst he
            rw [← hcs]
            have hok : childResize c (mkPair orient w h sz).1 (mkPair orient w h sz).2
                = (c₁, Option.none) := hc
            have hrec' : resizeSeqSh (shapeOfList cs) cs (pairsOf orient sizes w h)
                = (cs₂, Option.none) := by rw [pairsOf]; exact hrec
            obtain ⟨hmap, hcross⟩ := ih sizes cs₂ hl' hrec' hfa'
            constructor
            · simp only [List.map_cons, hmap]
              have hax : axisExtent orient c₁ = sz := by
                cases orient with
                | horizontal =>
                  simp only [mkPair] at hok
                  have h1 := childResize_ok_getWidth c sz h (by rw [hok])
                    (fun hf => (hfix (by simpa [axisFixed] using hf)).symm)
                  rw [hok] at h1
                  exact h1
                | vertical =>
                  simp only [mkPair] at hok
                  have h1 := childResize_ok_getHeight c w sz (by rw [hok])
                    (fun hf => (hfix (by simpa [axisFixed] using hf)).symm)
                  rw [hok] at h1
                  exact h1
              rw [hax]
            · intro c' hc' hcf
              rcases List.mem_cons.mp hc' with h0 | h0
              · subst h0
                have h2 := childResize_ok_cross orient c (mkPair orient w h sz).1
                  (mkPair orient w h sz).2 (by rw [hok]) (by rw [hok]; exact hcf)
                rw [hok] at h2
                cases orient <;> simpa [mkPair, crossSize] using h2
              · exact hcross c' h0 hcf
        · rename_i c₁ e hc
          simp at hseq

/-! ## Relating the root wrapper to `resizeSh` -/

theorem resizeSh_container_form (ss : Shape) (f : ContainerFields)
    (cs : List ContainerChild) (w h : Nat) :
    ∃ f' cs' e, resizeSh (Shape.cont ss) (ContainerChild.container f cs) w h =
      (ContainerChild.container f' cs', e) := by
  simp only [resizeSh]
  split
  · exact ⟨f, cs, _, rfl⟩
  · split
    · exact ⟨f, cs, _, rfl⟩
    · split
      · exact ⟨_, _, _, rfl⟩
      · exact ⟨_, _, _, rfl⟩

theorem ContainerList.resize_eq_resizeSh (f : ContainerFields)
    (cs : List ContainerChild) (w h : Nat) :
    resizeSh (Shape.cont (shapeOfList cs)) (ContainerChild.container f cs) w h =
      (ContainerChild.container (ContainerList.resize (f, cs) w h).1.1
        (ContainerList.resize (f, cs) w h).1.2,
       (ContainerList.resize (f, cs) w h).2) := by
  obtain ⟨f', cs', e, hform⟩ := resizeSh_container_form (shapeOfList cs) f cs w h
  simp only [ContainerList.resize, hform]

theorem gsc_length (orient : Direction) (cs : List ContainerChild) :
    (get_sizing_constraints orient cs).length = cs.length := by
  simp [get_sizing_constraints]

/-! ## C2: extent conservation -/

/-- C2 counterexample, two `resize` calls that return `Ok` and violate the
claim.  (a) A container holding one child fixed on both axes: `resize(10, 5)`
succeeds but the children's widths sum to 3 ≠ 10 and the child's height is
2 ≠ 5.  (b) `add_component` on a container built at 10×5 leaves the fresh
child 0×0 (the internal `resize(10, 5)` hits the dims-unchanged early
return), and a subsequent explicit `resize(10, 5)` again returns `Ok`
without resizing anything, so the widths sum to 0 ≠ 10 even though the child
is not fixed. -/
theorem C2_counterexample :
    ((ContainerList.resize
        (⟨"y", Direction.horizontal, true, ResizeDrag.none, 0, 0⟩,
          [ContainerChild.component
            (((Component.new "b" 0).set_fixed_width (some 3)).set_fixed_height
              (some 2))]) 10 5).2 = Option.none ∧
      sumAxis Direction.horizontal
        ((ContainerList.resize
          (⟨"y", Direction.horizontal, true, ResizeDrag.none, 0, 0⟩,
            [ContainerChild.component
              (((Component.new "b" 0).set_fixed_width (some 3)).set_fixed_height
                (some 2))]) 10 5).1.2) = 3 ∧
      ((ContainerList.resize
          (⟨"y", Direction.horizontal, true, ResizeDrag.none, 0, 0⟩,
            [ContainerChild.component
              (((Component.new "b" 0).set_fixed_width (some 3)).set_fixed_height
                (some 2))]) 10 5).1.2.map ContainerChild.getHeight) = [2]) ∧
    ((ContainerList.add_component
        (ContainerList.new "x" Direction.horizontal true 10 5)
        (Component.new "a" 0)).2 = Option.none ∧
      (ContainerList.resize
        (ContainerList.add_component
          (ContainerList.new "x" Direction.horizontal true 10 5)
          (Component.new "a" 0)).1 10 5).2 = Option.none ∧
      sumAxis Direction.horizontal
        ((ContainerList.resize
          (ContainerList.add_component
            (ContainerList.new "x" Direction.horizontal true 10 5)
            (Component.new "a" 0)).1 10 5).1.2) = 0) := by
  decide

/-- C2 (corrected): if `ContainerList::resize(w, h)` returns `Ok`, the
requested dimensions differ from the current ones (so the sizing pass
actually runs — `resize` returns `Ok` immediately when they are equal), and
at least one child is not fixed along the layout axis (an all-fixed or empty
container keeps only the fixed total, which may differ from `w`/`h`), then
the sum of the children's extents along the layout axis equals `w`
(Horizontal) or `h` (Vertical), and every child not fixed along the cross
axis has cross-axis extent equal to the container's new cross-axis
extent. -/
theorem C2_extent_conservation (f : ContainerFields) (cs : List ContainerChild)
    (w h : Nat) (f' : ContainerFields) (cs' : List ContainerChild)
    (hres : ContainerList.resize (f, cs) w h = ((f', cs'), Option.none))
    (hne : ¬(f.width = w ∧ f.height = h))
    (hflex : ∃ c ∈ cs, axisFixed f.orientation c = false) :
    sumAxis f.orientation cs' = axisSize f.orientation w h ∧
    ∀ c' ∈ cs', crossFixed f.orientation c' = false →
      crossExtent f.orientation c' = crossSize f.orientation w h := by
  have h2 := ContainerList.resize_eq_resizeSh f cs w h
  rw [hres] at h2
  simp only [resizeSh] at h2
  rw [if_neg hne] at h2
  split at h2
  · simp at h2
  · rename_i sizes heq
    split at h2
    · rename_i cs₁ hseq
      simp only [Prod.mk.injEq, ContainerChild.container.injEq] at h2
      obtain ⟨⟨-, hcs'⟩, -⟩ := h2
      obtain ⟨vs, hscatter, hvslen, hsizeslen, hsum⟩ :=
        calculate_sizes_spec _ _ _ heq
      have hsum' := hsum (ratioParts_gsc_ne f.orientation cs hflex)
      have hlensz : sizes.length = cs.length := by
        rw [hsizeslen, gsc_length]
      have halign : List.Forall₂
          (fun c sz => axisFixed f.orientation c = true →
            sz = axisExtent f.orientation c) cs sizes := by
        rw [hscatter]
        exact scatter_gsc_fixed _ _ _ f.orientation cs vs
      obtain ⟨hmap, hcross⟩ :=
        seq_axis_cross f.orientation w h cs sizes cs₁ hlensz hseq halign
      have hinv := (invalidate_pres (shapeOfList cs)).2 cs₁
      rw [hcs'] at hinv
      constructor
      · have : cs'.map (axisExtent f.orientation)
            = cs₁.map (axisExtent f.orientation) :=
          forall2_presDims_map_axis f.orientation hinv
        rw [sumAxis, this, hmap, hsum']
      · intro c' hc' hcf
        obtain ⟨c₁, hc₁, hpres⟩ := forall2_mem_right hinv c' hc'
        obtain ⟨hw', hh', hfw', hfh'⟩ := hpres
        have hcf₁ : crossFixed f.orientation c₁ = false := by
          cases horient : f.orientation
          · rw [horient] at hcf
            simp only [crossFixed] at hcf ⊢
            rw [← hfh']
            exact hcf
          · rw [horient] at hcf
            simp only [crossFixed] at hcf ⊢
            rw [← hfw']
            exact hcf
        have hceq : crossExtent f.orientation c' = crossExtent f.orientation c₁ := by
          cases f.orientation <;> simp [crossExtent, hw', hh']
        rw [hceq]
        exact hcross c₁ hc₁ hcf₁
    · simp at h2

/-- Witness for C2: the corrected claim applied to a concrete 10×5 resize of
a container with one flexible child and one fixed 3×2 child (shares 7 and 3,
summing to 10; the flexible child's height becomes 5). -/
theorem C2_extent_conservation_witness :
    sumAxis Direction.horizontal
      [ContainerChild.component ⟨"a", 7, 5, false, false, 0, true, Focus.none⟩,
       ContainerChild.component ⟨"b", 3, 2, true, true, 0, true, Focus.none⟩] =
        axisSize Direction.horizontal 10 5 ∧
    ∀ c' ∈ [ContainerChild.component ⟨"a", 7, 5, false, false, 0, true, Focus.none⟩,
       ContainerChild.component ⟨"b", 3, 2, true, true, 0, true, Focus.none⟩],
      crossFixed Direction.horizontal c' = false →
      crossExtent Direction.horizontal c' = crossSize Direction.horizontal 10 5 :=
  C2_extent_conservation
    ⟨"wit", Direction.horizontal, true, ResizeDrag.none, 0, 0⟩
    [ContainerChild.component (Component.new "a" 0),
     ContainerChild.component
       (((Component.new "b" 0).set_fixed_width (some 3)).set_fixed_height (some 2))]
    10 5
    ⟨"wit", Direction.horizontal, true, ResizeDrag.none, 10, 5⟩
    [ContainerChild.component ⟨"a", 7, 5, false, false, 0, true, Focus.none⟩,
     ContainerChild.component ⟨"b", 3, 2, true, true, 0, true, Focus.none⟩]
    rfl (by decide)
    ⟨ContainerChild.component (Component.new "a" 0), List.mem_cons_self _ _, by decide⟩

/-! ## Per-leaf observations preserved by every resize path -/

/-- Any per-leaf observation that `Component::resize` and
`Component::invalidate` preserve is preserved by the whole resize machinery:
the sizing pass, the rollback pass, and subtree invalidation. -/
theorem leavesMap_resize_all {α : Type} (g : Component → α)
    (hres : ∀ comp w h, g ((Component.resize comp w h).1) = g comp)
    (hinv : ∀ comp, g comp.invalidate = g comp) :
    ∀ s : Shape,
    (∀ c w h, leavesMapChild g (resizeSh s c w h).1 = leavesMapChild g c) ∧
    (∀ cs ps, leavesMapList g (resizeSeqSh s cs ps).1 = leavesMapList g cs) ∧
    (∀ cs ds, leavesMapList g (rollbackSh s cs ds) = leavesMapList g cs) ∧
    (∀ c, leavesMapChild g (invalidateSh s c) = leavesMapChild g c) ∧
    (∀ cs, leavesMapList g (invalidateListSh s cs) = leavesMapList g cs) := by
  intro s
  induction s with
  | comp =>
    refine ⟨?_, ?_, ?_, ?_, ?_⟩
    · intro c w h
      cases c with
      | component comp => simp [resizeSh, leavesMapChild, hres]
      | container f cs => rfl
    · intro cs ps; rfl
    · intro cs ds; rfl
    · intro c
      cases c with
      | component comp => simp [invalidateSh, leavesMapChild, hinv]
      | container f cs => rfl
    · intro cs; rfl
  | cont ss ih =>
    refine ⟨?_, ?_, ?_, ?_, ?_⟩
    · intro c w h
      cases c with
      | component comp => rfl
      | container f cs =>
        simp only [resizeSh]
        split
        · rfl
        · split
          · rfl
          · rename_i sizes heq
            split
            · rename_i cs₁ hseq
              simp only [leavesMapChild]
              rw [ih.2.2.2.2 cs₁]
              have h2 := ih.2.1 cs (pairsOf f.orientation sizes w h)
              rw [hseq] at h2
              exact h2
            · rename_i cs₁ e hseq
              simp only [leavesMapChild]
              rw [ih.2.2.1 cs₁ (cs.map fun c => (c.getWidth, c.getHeight))]
              have h2 := ih.2.1 cs (pairsOf f.orientation sizes w h)
              rw [hseq] at h2
              exact h2
    · intro cs ps; rfl
    · intro cs ds; rfl
    · intro c
      cases c with
      | component comp => rfl
      | container f cs =>
        simp only [invalidateSh, leavesMapChild]
        exact ih.2.2.2.2 cs
    · intro cs; rfl
  | nil =>
    exact ⟨fun c w h => rfl, fun cs ps => rfl, fun cs ds => rfl,
      fun c => rfl, fun cs => rfl⟩
  | cons sh ss ih ihs =>
    refine ⟨?_, ?_, ?_, ?_, ?_⟩
    · intro c w h; rfl
    · intro cs ps
      cases cs with
      | nil => rfl
      | cons c cs' =>
        cases ps with
        | nil => rfl
        | cons p ps' =>
          simp only [resizeSeqSh]
          split
          · rename_i c₁ hc
            show leavesMapList g (c₁ :: (resizeSeqSh ss cs' ps').1)
              = leavesMapList g (c :: cs')
            simp only [leavesMapList]
            have h1 := ih.1 c p.1 p.2
            rw [hc] at h1
            rw [show leavesMapChild g c₁ = leavesMapChild g c from h1,
              ihs.2.1 cs' ps']
          · rename_i c₁ e₁ hc
            simp only [leavesMapList]
            have h1 := ih.1 c p.1 p.2
            rw [hc] at h1
            rw [show leavesMapChild g c₁ = leavesMapChild g c from h1]
    · intro cs ds
      cases cs with
      | nil => rfl
      | cons c cs' =>
        cases ds with
        | nil => rfl
        | cons d ds' =>
          simp only [rollbackSh, leavesMapList]
          rw [ih.1 c d.1 d.2, ihs.2.2.1 cs' ds']
    · intro c; rfl
    · intro cs
      cases cs with
      | nil => rfl
      | cons c cs' =>
        simp only [invalidateListSh, leavesMapList]
        rw [ih.2.2.2.1 c, ihs.2.2.2.2 cs']

/-! ## Rollback of the failed sizing pass (C1) -/

theorem compPers_refl (c : Component) : compPers c c :=
  ⟨rfl, rfl, rfl, rfl, rfl, fun _ => rfl, fun _ => rfl⟩

theorem compPers_resize (comp : Component) (w h : Nat) :
    compPers comp ((Component.resize comp w h).1) := by
  obtain ⟨h1, h2, h3, h4, h5⟩ := Component.resize_pres comp w h
  exact ⟨h1, h2, h3, h4, h5,
    fun hf => Component.resize_fixed_width comp w h (h3 ▸ hf),
    fun hf => Component.resize_fixed_height comp w h (h4 ▸ hf)⟩

/-- Re-resizing any intermediate state of a component to its original
dimensions restores width, height, and focus, provided those dimensions were
at least the component's minimum size. -/
theorem comp_restore (comp st : Component) (hp : compPers comp st)
    (hminw : Nat.max (comp.border_width * 2) 1 ≤ comp.width)
    (hminh : Nat.max (comp.border_width * 2) 1 ≤ comp.height) :
    (Component.resize st comp.width comp.height).1.width = comp.width ∧
    (Component.resize st comp.width comp.height).1.height = comp.height ∧
    (Component.resize st comp.width comp.height).1.focus = comp.focus := by
  obtain ⟨hn, hbw, hfw, hfh, hfoc, hfwv, hfhv⟩ := hp
  have hok : (Component.resize st comp.width comp.height).2 = Option.none := by
    have hiff := Component.resize_err_iff st comp.width comp.height
    rw [hbw] at hiff
    rcases hsnd : (Component.resize st comp.width comp.height).2 with _ | e0
    · rfl
    · exfalso
      have hsome : (Component.resize st comp.width comp.height).2.isSome := by
        rw [hsnd]; rfl
      rcases hiff.mp hsome with hlt | hlt <;> omega
  refine ⟨?_, ?_, ?_⟩
  · rw [Component.resize_ok_width st _ _ hok]
    split
    · rename_i hf; exact hfwv hf
    · rfl
  · rw [Component.resize_ok_height st _ _ hok]
    split
    · rename_i hf; exact hfhv hf
    · rfl
  · exact ((Component.resize_pres st _ _).2.2.2.2).trans hfoc

theorem resizeSh_comp_inv (comp : Component) (w h : Nat)
    (c₁ : ContainerChild) (e : Option ResizeError)
    (hc : resizeSh Shape.comp (ContainerChild.component comp) w h = (c₁, e)) :
    c₁ = ContainerChild.component ((Component.resize comp w h).1) ∧
    e = (Component.resize comp w h).2 := by
  rw [show resizeSh Shape.comp (ContainerChild.component comp) w h =
      (ContainerChild.component ((Component.resize comp w h).1),
        (Component.resize comp w h).2) from by simp [resizeSh]] at hc
  simp only [Prod.mk.injEq] at hc
  exact ⟨hc.1.symm, hc.2.symm⟩

/-- Rolling back a list of untouched children to their own current
dimensions restores every component with valid dimensions. -/
theorem rollback_self : ∀ (cs : List ContainerChild) (i : Nat) (comp : Component),
    cs.get? i = some (ContainerChild.component comp) →
    Nat.max (comp.border_width * 2) 1 ≤ comp.width →
    Nat.max (comp.border_width * 2) 1 ≤ comp.height →
    ∃ comp', (rollbackSh (shapeOfList cs) cs
        (cs.map fun c => (c.getWidth, c.getHeight))).get? i
      = some (ContainerChild.component comp') ∧
      comp'.width = comp.width ∧ comp'.height = comp.height ∧
      comp'.focus = comp.focus := by
  intro cs
  induction cs with
  | nil => intro i comp h; simp at h
  | cons c cs ih =>
    intro i comp hget hminw hminh
    simp only [shapeOfList, List.map_cons, rollbackSh]
    cases i with
    | zero =>
      have hc : c = ContainerChild.component comp := by simpa using hget
      subst hc
      obtain ⟨hw', hh', hfoc'⟩ :=
        comp_restore comp comp (compPers_refl comp) hminw hminh
      exact ⟨(Component.resize comp comp.width comp.height).1,
        by simp [resizeSh, shapeOf, ContainerChild.getWidth, ContainerChild.getHeight],
        hw', hh', hfoc'⟩
    | succ i =>
      simp only [List.get?_cons_succ]
      exact ih i comp (by simpa using hget) hminw hminh

/-- After a failed sizing pass, the rollback loop restores every component
child whose previous dimensions were at least its minimum size. -/
theorem c1_core : ∀ (cs : List ContainerChild) (ps : List (Nat × Nat))
    (cs₁ : List ContainerChild) (e : ResizeError),
    resizeSeqSh (shapeOfList cs) cs ps = (cs₁, some e) →
    ∀ i comp, cs.get? i = some (ContainerChild.component comp) →
      Nat.max (comp.border_width * 2) 1 ≤ comp.width →
      Nat.max (comp.border_width * 2) 1 ≤ comp.height →
      ∃ comp', (rollbackSh (shapeOfList cs) cs₁
          (cs.map fun c => (c.getWidth, c.getHeight))).get? i
        = some (ContainerChild.component comp') ∧
        comp'.width = comp.width ∧ comp'.height = comp.height ∧
        comp'.focus = comp.focus := by
  intro cs
  induction cs with
  | nil =>
    intro ps cs₁ e hseq
    rw [shapeOfList] at hseq
    simp [resizeSeqSh] at hseq
  | cons c cs ih =>
    intro ps cs₁ e hseq i comp hget hminw hminh
    cases ps with
    | nil =>
      rw [shapeOfList] at hseq
      simp [resizeSeqSh] at hseq
    | cons p ps =>
      rw [shapeOfList, resizeSeqSh] at hseq
      split at hseq
      · rename_i c₁ hc
        simp only [Prod.mk.injEq] at hseq
        obtain ⟨hcs₁, he⟩ := hseq
        rw [← hcs₁]
        simp only [shapeOfList, List.map_cons, rollbackSh]
        cases i with
        | zero =>
          have hceq : c = ContainerChild.component comp := by simpa using hget
          subst hceq
          obtain ⟨hc₁eq, -⟩ := resizeSh_comp_inv comp p.1 p.2 c₁ _ hc
          subst hc₁eq
          obtain ⟨hw', hh', hfoc'⟩ :=
            comp_restore comp ((Component.resize comp p.1 p.2).1)
              (compPers_resize comp p.1 p.2) hminw hminh
          exact ⟨_,
            by simp [resizeSh, shapeOf, ContainerChild.getWidth,
              ContainerChild.getHeight],
            hw', hh', hfoc'⟩
        | succ i =>
          simp only [List.get?_cons_succ]
          have hrec : resizeSeqSh (shapeOfList cs) cs ps
              = ((resizeSeqSh (shapeOfList cs) cs ps).1, some e) := by
            rw [← he]
          exact ih ps _ e hrec i comp (by simpa using hget) hminw hminh
      · rename_i c₁ e₀ hc
        simp only [Prod.mk.injEq, Option.some_inj] at hseq
        obtain ⟨hcs₁, he⟩ := hseq
        rw [← hcs₁]
        simp only [shapeOfList, List.map_cons, rollbackSh]
        cases i with
        | zero =>
          have hceq : c = ContainerChild.component comp := by simpa using hget
          subst hceq
          obtain ⟨hc₁eq, heq2⟩ := resizeSh_comp_inv comp p.1 p.2 c₁ _ hc
          subst hc₁eq
          have hst : (Component.resize comp p.1 p.2).1 = comp :=
            Component.resize_err comp p.1 p.2 (by rw [← heq2]; rfl)
          rw [hst]
          obtain ⟨hw', hh', hfoc'⟩ :=
            comp_restore comp comp (compPers_refl comp) hminw hminh
          exact ⟨_,
            by simp [resizeSh, shapeOf, ContainerChild.getWidth,
              ContainerChild.getHeight],
            hw', hh', hfoc'⟩
        | succ i =>
          simp only [List.get?_cons_succ]
          exact rollback_self cs i comp (by simpa using hget) hminw hminh

/-! ## C1: resize rollback -/

/-- C1 counterexample: a horizontal container with two fresh (0×0) children,
one of border width 5.  `resize(4, 4)` assigns both children 2×4; the first
child accepts, the second fails (minimum size 10), and the rollback
re-resize of the first child to its old 0×0 dimensions itself fails (below
minimum) and is ignored — so after the erroring call the first child's width
is 2, not its pre-call 0. -/
theorem C1_counterexample :
    (ContainerList.resize
        (⟨"r", Direction.horizontal, false, ResizeDrag.none, 0, 0⟩,
          [ContainerChild.component (Component.new "a" 0),
           ContainerChild.component (Component.new "b" 5)]) 4 4).2 =
      some ⟨"b", 2, 4, 5⟩ ∧
    [ContainerChild.component (Component.new "a" 0),
      ContainerChild.component (Component.new "b" 5)].map ContainerChild.getWidth
      = [0, 0] ∧
    ((ContainerList.resize
        (⟨"r", Direction.horizontal, false, ResizeDrag.none, 0, 0⟩,
          [ContainerChild.component (Component.new "a" 0),
           ContainerChild.component (Component.new "b" 5)]) 4 4).1.2.map
      ContainerChild.getWidth) = [2, 0] := by
  decide

/-- C1 (corrected): when `ContainerList::resize(w, h)` returns an error, the
container's own recorded fields (width, height, drag state) are unchanged and
the focus of every node in the tree is unchanged; each child is re-resized to
its pre-call dimensions, which restores the width and height of every
component child whose pre-call dimensions were at least its minimum viable
size `max(2 × border_width, 1)` — but (contrary to the claim) a child whose
rollback resize itself fails, e.g. a never-resized 0×0 component, keeps the
partially committed size. -/
theorem C1_resize_rollback (f : ContainerFields) (cs : List ContainerChild)
    (w h : Nat) (f' : ContainerFields) (cs' : List ContainerChild)
    (e : ResizeError)
    (hres : ContainerList.resize (f, cs) w h = ((f', cs'), some e)) :
    f' = f ∧ focusesList cs' = focusesList cs ∧
    ∀ i comp, cs.get? i = some (ContainerChild.component comp) →
      Nat.max (comp.border_width * 2) 1 ≤ comp.width →
      Nat.max (comp.border_width * 2) 1 ≤ comp.height →
      ∃ comp', cs'.get? i = some (ContainerChild.component comp') ∧
        comp'.width = comp.width ∧ comp'.height = comp.height ∧
        comp'.focus = comp.focus := by
  have h2 := ContainerList.resize_eq_resizeSh f cs w h
  rw [hres] at h2
  simp only [resizeSh] at h2
  split at h2
  · simp at h2
  · split at h2
    · simp only [Prod.mk.injEq, ContainerChild.container.injEq] at h2
      obtain ⟨⟨hf', hcs'⟩, -⟩ := h2
      refine ⟨hf'.symm, by rw [← hcs'], ?_⟩
      intro i comp hget _ _
      exact ⟨comp, by rw [← hcs']; exact hget, rfl, rfl, rfl⟩
    · rename_i sizes heq
      split at h2
      · simp at h2
      · rename_i cs₁ e₀ hseq
        simp only [Prod.mk.injEq, ContainerChild.container.injEq,
          Option.some_inj] at h2
        obtain ⟨⟨hf', hcs'⟩, he⟩ := h2
        refine ⟨hf'.symm, ?_, ?_⟩
        · rw [← hcs']
          have hall := leavesMap_resize_all (fun c0 => c0.focus)
            (fun comp w h => (Component.resize_pres comp w h).2.2.2.2)
            (fun comp => rfl) (shapeOfList cs)
          have hrb := hall.2.2.1 cs₁ (cs.map fun c0 => (c0.getWidth, c0.getHeight))
          have hsq := hall.2.1 cs (pairsOf f.orientation sizes w h)
          rw [hseq] at hsq
          simp only [focusesList]
          rw [hrb]
          exact hsq
        · intro i comp hget hminw hminh
          obtain ⟨comp', hg, hw', hh', hfoc'⟩ :=
            c1_core cs (pairsOf f.orientation sizes w h) cs₁ e₀ hseq
              i comp hget hminw hminh
          exact ⟨comp', by rw [← hcs']; exact hg, hw', hh', hfoc'⟩

/-- Witness for C1: the corrected claim at a concrete failing resize — two
4×4 children, the second with border width 5; `resize(6, 4)` fails on the
second child and the first child (valid pre-call dimensions) is rolled back
to 4×4 with its focus intact. -/
theorem C1_resize_rollback_witness :
    (⟨"r", Direction.horizontal, true, ResizeDrag.none, 8, 4⟩ : ContainerFields)
      = ⟨"r", Direction.horizontal, true, ResizeDrag.none, 8, 4⟩ ∧
    focusesList
        [ContainerChild.component ⟨"g", 4, 4, false, false, 1, true, Focus.none⟩,
         ContainerChild.component ⟨"bd", 4, 4, false, false, 5, false, Focus.none⟩]
      = focusesList
        [ContainerChild.component ⟨"g", 4, 4, false, false, 1, false, Focus.none⟩,
         ContainerChild.component ⟨"bd", 4, 4, false, false, 5, false, Focus.none⟩] ∧
    ∃ comp',
      [ContainerChild.component ⟨"g", 4, 4, false, false, 1, true, Focus.none⟩,
       ContainerChild.component
         ⟨"bd", 4, 4, false, false, 5, false, Focus.none⟩].get? 0
        = some (ContainerChild.component comp') ∧
      comp'.width = 4 ∧ comp'.height = 4 ∧ comp'.focus = Focus.none :=
  let h := C1_resize_rollback
    ⟨"r", Direction.horizontal, true, ResizeDrag.none, 8, 4⟩
    [ContainerChild.component ⟨"g", 4, 4, false, false, 1, false, Focus.none⟩,
     ContainerChild.component ⟨"bd", 4, 4, false, false, 5, false, Focus.none⟩]
    6 4
    ⟨"r", Direction.horizontal, true, ResizeDrag.none, 8, 4⟩
    [ContainerChild.component ⟨"g", 4, 4, false, false, 1, true, Focus.none⟩,
     ContainerChild.component ⟨"bd", 4, 4, false, false, 5, false, Focus.none⟩]
    ⟨"bd", 3, 4, 5⟩ rfl
  ⟨h.1, h.2.1,
    h.2.2 0 ⟨"g", 4, 4, false, false, 1, false, Focus.none⟩ rfl
      (by decide) (by decide)⟩

/-! ## Interactive border-drag resize (`ContainerList::handle_resize`) -/

theorem childResize_ok_getHeight_same (c : ContainerChild) (w : Nat)
    (hok : (childResize c w c.getHeight).2 = Option.none) :
    (childResize c w c.getHeight).1.getHeight = c.getHeight := by
  cases c with
  | component comp =>
    rw [childResize_component] at hok ⊢
    simp only [ContainerChild.getHeight] at hok ⊢
    rw [Component.resize_ok_height comp _ _ hok]
    split <;> rfl
  | container f cs =>
    obtain ⟨f', cs', heq, -, hh⟩ := childResize_container_ok f cs w _ hok
    rw [heq]
    exact hh

theorem childResize_ok_getWidth_same (c : ContainerChild) (h : Nat)
    (hok : (childResize c c.getWidth h).2 = Option.none) :
    (childResize c c.getWidth h).1.getWidth = c.getWidth := by
  cases c with
  | component comp =>
    rw [childResize_component] at hok ⊢
    simp only [ContainerChild.getWidth] at hok ⊢
    rw [Component.resize_ok_width comp _ _ hok]
    split <;> rfl
  | container f cs =>
    obtain ⟨f', cs', heq, hw, -⟩ := childResize_container_ok f cs _ h hok
    rw [heq]
    exact hw

theorem dragResizePair_ok (f : ContainerFields) (cs : List ContainerChild)
    (next : Nat) (iS iG : Nat) (dS dG : Nat × Nat)
    (hne : iS ≠ iG)
    (hokS : (childResize (cs.getD iS dfltChild) dS.1 dS.2).2 = Option.none)
    (hokG : (childResize (cs.getD iG dfltChild) dG.1 dG.2).2 = Option.none) :
    dragResizePair f cs next iS dS iG dG =
      some ({ f with resizeState := f.resizeState.withOffset next },
        (cs.set iS (childResize (cs.getD iS dfltChild) dS.1 dS.2).1).set iG
          (childResize (cs.getD iG dfltChild) dG.1 dG.2).1) := by
  have hgd : (cs.set iS (childResize (cs.getD iS dfltChild) dS.1 dS.2).1).getD iG
      dfltChild = cs.getD iG dfltChild := by
    show ((cs.set iS _).get? iG).getD _ = (cs.get? iG).getD _
    rw [List.get?_set_ne _ _ hne]
  have hS : childResize (cs.getD iS dfltChild) dS.1 dS.2
      = ((childResize (cs.getD iS dfltChild) dS.1 dS.2).1, Option.none) := by
    rw [← hokS]
  have hG : childResize (cs.getD iG dfltChild) dG.1 dG.2
      = ((childResize (cs.getD iG dfltChild) dG.1 dG.2).1, Option.none) := by
    rw [← hokG]
  simp only [dragResizePair]
  rw [hS]
  simp only [hgd]
  rw [hG]

/-! ## C7: a fixed neighbor leaves the drag state untouched -/

/-- C7 counterexample: a resizable 32×8 horizontal container dragging the
border before child 1, whose left neighbor is fixed-width.  The drag event
resizes nothing — but the drag state stays `LeftTop {16, 1}` instead of
being reset to `None` as claimed (the fixed-size guard in
`src/container/list.rs` lines 264–279 `return`s without clearing
`self.resize`). -/
theorem C7_counterexample :
    handle_resize ⟨"h", Direction.horizontal, true, ResizeDrag.leftTop 16 1, 32, 8⟩
      [ContainerChild.component ⟨"l", 16, 8, true, false, 1, false, Focus.none⟩,
       ContainerChild.component ⟨"c", 16, 8, false, false, 1, false, Focus.none⟩]
      18 Direction.horizontal (MouseEventKind.drag MouseButton.left)
    = some (⟨"h", Direction.horizontal, true, ResizeDrag.leftTop 16 1, 32, 8⟩,
      [ContainerChild.component ⟨"l", 16, 8, true, false, 1, false, Focus.none⟩,
       ContainerChild.component ⟨"c", 16, 8, false, false, 1, false, Focus.none⟩]) ∧
    (ResizeDrag.leftTop 16 1 ≠ ResizeDrag.none) :=
  ⟨rfl, by decide⟩

/-- C7 (corrected): during an active border drag in a resizable container,
if either of the two children adjacent to the dragged border is fixed along
the layout axis, neither child is resized — but the interactive-resize state
is **left unchanged** (the drag stays active), not reset to `None` as
claimed; the whole container state is returned untouched. -/
theorem C7_fixed_neighbor_keeps_state (f : ContainerFields)
    (cs : List ContainerChild) (next : Nat) (orient : Direction)
    (mo i0 i1 : Nat)
    (hres : f.resizable = true)
    (hstate : (f.resizeState = ResizeDrag.leftTop mo i1 ∧ i1 ≠ 0 ∧ i0 = i1 - 1) ∨
              (f.resizeState = ResizeDrag.rightBottom mo i0 ∧ i1 = i0 + 1))
    (hlen : i1 < cs.length)
    (hfix : axisFixed orient (cs.getD i0 dfltChild) = true ∨
            axisFixed orient (cs.getD i1 dfltChild) = true) :
    handle_resize f cs next orient (MouseEventKind.drag MouseButton.left)
      = some (f, cs) := by
  have hor : (axisFixed orient (cs.getD i0 dfltChild) ||
      axisFixed orient (cs.getD i1 dfltChild)) = true := by
    rcases hfix with hfix | hfix
    · rw [hfix, Bool.true_or]
    · rw [hfix, Bool.or_true]
  simp only [handle_resize]
  rw [if_neg (by simp [hres])]
  rcases hstate with ⟨hst, hne0, hi0⟩ | ⟨hst, hi1⟩
  · rw [hst]
    simp only
    rw [if_neg hne0, handleResizeCore, if_neg (not_le.mpr hlen)]
    rw [← hi0]
    simp only [hor, if_true]
  · rw [hst]
    simp only
    rw [handleResizeCore]
    rw [← hi1]
    rw [if_neg (not_le.mpr hlen)]
    simp only [hor, if_true]

/-- Witness for C7: the corrected claim at the concrete fixed-neighbor
scenario of the counterexample. -/
theorem C7_fixed_neighbor_keeps_state_witness :
    handle_resize ⟨"h7", Direction.horizontal, true, ResizeDrag.leftTop 16 1, 32, 8⟩
      [ContainerChild.component ⟨"l", 16, 8, true, false, 1, false, Focus.none⟩,
       ContainerChild.component ⟨"c", 16, 8, false, false, 1, false, Focus.none⟩]
      18 Direction.horizontal (MouseEventKind.drag MouseButton.left)
    = some (⟨"h7", Direction.horizontal, true, ResizeDrag.leftTop 16 1, 32, 8⟩,
      [ContainerChild.component ⟨"l", 16, 8, true, false, 1, false, Focus.none⟩,
       ContainerChild.component ⟨"c", 16, 8, false, false, 1, false, Focus.none⟩]) :=
  C7_fixed_neighbor_keeps_state
    ⟨"h7", Direction.horizontal, true, ResizeDrag.leftTop 16 1, 32, 8⟩
    [ContainerChild.component ⟨"l", 16, 8, true, false, 1, false, Focus.none⟩,
     ContainerChild.component ⟨"c", 16, 8, false, false, 1, false, Focus.none⟩]
    18 Direction.horizontal 16 0 1 rfl
    (Or.inl ⟨rfl, by decide, rfl⟩) (by decide) (Or.inl (by decide))

/-! ## C4: border-drag resize of the two straddling children -/

theorem getD_set_both {α : Type} (cs : List α) (i0 i1 : Nat) (x y d : α)
    (hne : i0 ≠ i1) (h0 : i0 < cs.length) (h1 : i1 < cs.length) :
    ((cs.set i0 x).set i1 y).getD i0 d = x ∧
    ((cs.set i0 x).set i1 y).getD i1 d = y := by
  constructor
  · show (((cs.set i0 x).set i1 y).get? i0).getD d = x
    rw [List.get?_set_ne _ _ (Ne.symm hne), List.get?_set_eq_of_lt _ h0]
    rfl
  · show (((cs.set i0 x).set i1 y).get? i1).getD d = y
    rw [List.get?_set_eq_of_lt _ (by rw [List.length_set]; exact h1)]
    rfl

/-- C4 (confirmed): during an active border drag in a resizable container
(state `LeftTop`/`RightBottom` around the border between children `i0` and
`i1 = i0 + 1`), a left-button drag event at offset `next` with
`delta = next - last_offset ≠ 0`, both neighbors non-fixed along the layout
axis, both resulting extents positive, and both child resizes succeeding,
resizes the two straddling children in opposite directions by `delta` along
the layout axis (their new extents are the old ones plus/minus `delta`),
leaves their cross-axis extents unchanged, preserves the total extent along
the layout axis, leaves every other child untouched, and records the new
mouse offset in the drag state.  In particular (witness) dragging the border
between two width-16 children of a 32-wide horizontal container by +2 cells
yields widths 18 and 14, total 32. -/
theorem C4_border_drag (f : ContainerFields) (cs : List ContainerChild)
    (next : Nat) (orient : Direction) (mo i0 i1 : Nat) (delta : Int)
    (c0 c1 : ContainerChild) (n0 n1 : Nat)
    (hres : f.resizable = true)
    (hstate : (f.resizeState = ResizeDrag.leftTop mo i1 ∧ i1 ≠ 0 ∧ i0 = i1 - 1) ∨
              (f.resizeState = ResizeDrag.rightBottom mo i0 ∧ i1 = i0 + 1))
    (hsucc : i1 = i0 + 1)
    (hdelta : delta = (next : Int) - (mo : Int))
    (hlen : i1 < cs.length)
    (hc0 : c0 = cs.getD i0 dfltChild)
    (hc1 : c1 = cs.getD i1 dfltChild)
    (hfix0 : axisFixed orient c0 = false)
    (hfix1 : axisFixed orient c1 = false)
    (hn0 : n0 = ((axisExtent orient c0 : Int) + delta).toNat)
    (hn1 : n1 = ((axisExtent orient c1 : Int) - delta).toNat)
    (hpos0 : 0 < (axisExtent orient c0 : Int) + delta)
    (hpos1 : 0 < (axisExtent orient c1 : Int) - delta)
    (hdne : delta ≠ 0)
    (hok0 : (childResize c0 (axisResizeDims orient c0 n0).1
      (axisResizeDims orient c0 n0).2).2 = Option.none)
    (hok1 : (childResize c1 (axisResizeDims orient c1 n1).1
      (axisResizeDims orient c1 n1).2).2 = Option.none) :
    ∃ cs', handle_resize f cs next orient (MouseEventKind.drag MouseButton.left)
        = some ({ f with resizeState := f.resizeState.withOffset next }, cs') ∧
      cs'.length = cs.length ∧
      axisExtent orient (cs'.getD i0 dfltChild) = n0 ∧
      axisExtent orient (cs'.getD i1 dfltChild) = n1 ∧
      crossExtent orient (cs'.getD i0 dfltChild) = crossExtent orient c0 ∧
      crossExtent orient (cs'.getD i1 dfltChild) = crossExtent orient c1 ∧
      axisExtent orient (cs'.getD i0 dfltChild) +
          axisExtent orient (cs'.getD i1 dfltChild)
        = axisExtent orient c0 + axisExtent orient c1 ∧
      (∀ j, j ≠ i0 → j ≠ i1 → cs'.get? j = cs.get? j) := by
  have hne01 : i0 ≠ i1 := by omega
  have hi0len : i0 < cs.length := by omega
  have hntot : n0 + n1 = axisExtent orient c0 + axisExtent orient c1 := by
    omega
  -- the two resized children
  have haxis0 : axisExtent orient ((childResize c0 (axisResizeDims orient c0 n0).1
      (axisResizeDims orient c0 n0).2).1) = n0 := by
    cases horient : orient
    · rw [horient] at hfix0 hok0
      simp only [axisResizeDims, axisExtent] at hok0 ⊢
      exact childResize_ok_getWidth c0 n0 c0.getHeight hok0
        (fun hf => by rw [axisFixed] at hfix0; simp [hfix0] at hf)
    · rw [horient] at hfix0 hok0
      simp only [axisResizeDims, axisExtent] at hok0 ⊢
      exact childResize_ok_getHeight c0 c0.getWidth n0 hok0
        (fun hf => by rw [axisFixed] at hfix0; simp [hfix0] at hf)
  have haxis1 : axisExtent orient ((childResize c1 (axisResizeDims orient c1 n1).1
      (axisResizeDims orient c1 n1).2).1) = n1 := by
    cases horient : orient
    · rw [horient] at hfix1 hok1
      simp only [axisResizeDims, axisExtent] at hok1 ⊢
      exact childResize_ok_getWidth c1 n1 c1.getHeight hok1
        (fun hf => by rw [axisFixed] at hfix1; simp [hfix1] at hf)
    · rw [horient] at hfix1 hok1
      simp only [axisResizeDims, axisExtent] at hok1 ⊢
      exact childResize_ok_getHeight c1 c1.getWidth n1 hok1
        (fun hf => by rw [axisFixed] at hfix1; simp [hfix1] at hf)
  have hcross0 : crossExtent orient ((childResize c0 (axisResizeDims orient c0 n0).1
      (axisResizeDims orient c0 n0).2).1) = crossExtent orient c0 := by
    cases horient : orient
    · rw [horient] at hok0
      simp only [axisResizeDims, crossExtent] at hok0 ⊢
      exact childResize_ok_getHeight_same c0 n0 hok0
    · rw [horient] at hok0
      simp only [axisResizeDims, crossExtent] at hok0 ⊢
      exact childResize_ok_getWidth_same c0 n0 hok0
  have hcross1 : crossExtent orient ((childResize c1 (axisResizeDims orient c1 n1).1
      (axisResizeDims orient c1 n1).2).1) = crossExtent orient c1 := by
    cases horient : orient
    · rw [horient] at hok1
      simp only [axisResizeDims, crossExtent] at hok1 ⊢
      exact childResize_ok_getHeight_same c1 n1 hok1
    · rw [horient] at hok1
      simp only [axisResizeDims, crossExtent] at hok1 ⊢
      exact childResize_ok_getWidth_same c1 n1 hok1
  -- reduce handle_resize to handleResizeCore
  have hmain : handle_resize f cs next orient
      (MouseEventKind.drag MouseButton.left)
      = handleResizeCore f cs next orient i0 i1 delta := by
    simp only [handle_resize]
    rw [if_neg (by simp [hres])]
    rcases hstate with ⟨hst, hne0, hi0⟩ | ⟨hst, hi1⟩
    · rw [hst]
      simp only
      rw [if_neg hne0, ← hi0, ← hdelta]
    · rw [hst]
      simp only
      rw [← hi1, ← hdelta]
  -- reduce handleResizeCore to dragResizePair
  have hfor : (axisFixed orient (cs.getD i0 dfltChild) ||
      axisFixed orient (cs.getD i1 dfltChild)) = false := by
    rw [← hc0, ← hc1, hfix0, hfix1]
    rfl
  have hnotle : ¬((axisExtent orient (cs.getD i0 dfltChild) : Int)
      + delta ≤ 0 ∨ (axisExtent orient (cs.getD i1 dfltChild) : Int)
      - delta ≤ 0) := by
    rw [← hc0, ← hc1]
    omega
  have hcore : handleResizeCore f cs next orient i0 i1 delta =
      (if delta < 0 then
        dragResizePair f cs next i0 (axisResizeDims orient c0 n0)
          i1 (axisResizeDims orient c1 n1)
      else
        dragResizePair f cs next i1 (axisResizeDims orient c1 n1)
          i0 (axisResizeDims orient c0 n0)) := by
    simp only [handleResizeCore]
    rw [if_neg (not_le.mpr hlen), if_neg (by rw [hfor]; simp),
      if_neg hnotle, if_neg hdne, ← hc0, ← hc1, ← hn0, ← hn1]
  -- the ok-hypotheses in `getD` form
  have hok0g : (childResize (cs.getD i0 dfltChild) (axisResizeDims orient c0 n0).1
      (axisResizeDims orient c0 n0).2).2 = Option.none := by
    rw [← hc0]; exact hok0
  have hok1g : (childResize (cs.getD i1 dfltChild) (axisResizeDims orient c1 n1).1
      (axisResizeDims orient c1 n1).2).2 = Option.none := by
    rw [← hc1]; exact hok1
  rcases lt_or_gt_of_ne hdne with hlt | hgt
  · -- delta < 0: shrink i0 first, grow i1 second
    have hpair := dragResizePair_ok f cs next i0 i1 (axisResizeDims orient c0 n0)
      (axisResizeDims orient c1 n1) hne01 hok0g hok1g
    rw [hmain, hcore, if_pos hlt, hpair]
    obtain ⟨hfst, hsnd⟩ := getD_set_both cs i0 i1
      (childResize (cs.getD i0 dfltChild) (axisResizeDims orient c0 n0).1
        (axisResizeDims orient c0 n0).2).1
      (childResize (cs.getD i1 dfltChild) (axisResizeDims orient c1 n1).1
        (axisResizeDims orient c1 n1).2).1
      dfltChild hne01 hi0len hlen
    refine ⟨_, rfl, by rw [List.length_set, List.length_set], ?_, ?_, ?_, ?_, ?_, ?_⟩
    · rw [hfst, ← hc0]; exact haxis0
    · rw [hsnd, ← hc1]; exact haxis1
    · rw [hfst, ← hc0]; exact hcross0
    · rw [hsnd, ← hc1]; exact hcross1
    · rw [hfst, hsnd, ← hc0, ← hc1, haxis0, haxis1]; exact hntot
    · intro j hj0 hj1
      rw [List.get?_set_ne _ _ (Ne.symm hj1), List.get?_set_ne _ _ (Ne.symm hj0)]
  · -- delta > 0: shrink i1 first, grow i0 second
    have hpair := dragResizePair_ok f cs next i1 i0 (axisResizeDims orient c1 n1)
      (axisResizeDims orient c0 n0) (Ne.symm hne01) hok1g hok0g
    rw [hmain, hcore, if_neg (by omega), hpair]
    obtain ⟨hfst, hsnd⟩ := getD_set_both cs i1 i0
      (childResize (cs.getD i1 dfltChild) (axisResizeDims orient c1 n1).1
        (axisResizeDims orient c1 n1).2).1
      (childResize (cs.getD i0 dfltChild) (axisResizeDims orient c0 n0).1
        (axisResizeDims orient c0 n0).2).1
      dfltChild (Ne.symm hne01) hlen hi0len
    refine ⟨_, rfl, by rw [List.length_set, List.length_set], ?_, ?_, ?_, ?_, ?_, ?_⟩
    · rw [hsnd, ← hc0]; exact haxis0
    · rw [hfst, ← hc1]; exact haxis1
    · rw [hsnd, ← hc0]; exact hcross0
    · rw [hfst, ← hc1]; exact hcross1
    · rw [hsnd, hfst, ← hc0, ← hc1, haxis0, haxis1]; exact hntot
    · intro j hj0 hj1
      rw [List.get?_set_ne _ _ (Ne.symm hj0), List.get?_set_ne _ _ (Ne.symm hj1)]

/-- Witness for C4: the spec's concrete scenario — dragging the border after
the first of two width-16 children of a 32-wide horizontal container from
offset 16 to 18 (`delta = +2`) yields widths 18 and 14, heights unchanged,
total still 32, and the drag state records offset 18. -/
theorem C4_border_drag_witness :
    handle_resize ⟨"h4", Direction.horizontal, true, ResizeDrag.rightBottom 16 0, 32, 8⟩
      [ContainerChild.component ⟨"l", 16, 8, false, false, 1, false, Focus.none⟩,
       ContainerChild.component ⟨"c", 16, 8, false, false, 1, false, Focus.none⟩]
      18 Direction.horizontal (MouseEventKind.drag MouseButton.left)
    = some (⟨"h4", Direction.horizontal, true, ResizeDrag.rightBottom 18 0, 32, 8⟩,
      [ContainerChild.component ⟨"l", 18, 8, false, false, 1, true, Focus.none⟩,
       ContainerChild.component ⟨"c", 14, 8, false, false, 1, true, Focus.none⟩]) ∧
    axisExtent Direction.horizontal
      ([ContainerChild.component ⟨"l", 18, 8, false, false, 1, true, Focus.none⟩,
        ContainerChild.component ⟨"c", 14, 8, false, false, 1, true, Focus.none⟩].getD
        0 dfltChild) = 18 ∧
    axisExtent Direction.horizontal
      ([ContainerChild.component ⟨"l", 18, 8, false, false, 1, true, Focus.none⟩,
        ContainerChild.component ⟨"c", 14, 8, false, false, 1, true, Focus.none⟩].getD
        1 dfltChild) = 14 ∧
    18 + 14 =
      axisExtent Direction.horizontal
        (ContainerChild.component ⟨"l", 16, 8, false, false, 1, false, Focus.none⟩) +
      axisExtent Direction.horizontal
        (ContainerChild.component ⟨"c", 16, 8, false, false, 1, false, Focus.none⟩) := by
  obtain ⟨cs', h1, h2, h3, h4, h5, h6, h7, h8⟩ :=
    C4_border_drag
      ⟨"h4", Direction.horizontal, true, ResizeDrag.rightBottom 16 0, 32, 8⟩
      [ContainerChild.component ⟨"l", 16, 8, false, false, 1, false, Focus.none⟩,
       ContainerChild.component ⟨"c", 16, 8, false, false, 1, false, Focus.none⟩]
      18 Direction.horizontal 16 0 1 2
      (ContainerChild.component ⟨"l", 16, 8, false, false, 1, false, Focus.none⟩)
      (ContainerChild.component ⟨"c", 16, 8, false, false, 1, false, Focus.none⟩)
      18 14
      rfl (Or.inr ⟨rfl, rfl⟩) rfl (by decide) (by decide) rfl rfl
      (by decide) (by decide) (by decide) (by decide) (by decide) (by decide)
      (by decide) (by decide) (by decide)
  rw [show handle_resize
      ⟨"h4", Direction.horizontal, true, ResizeDrag.rightBottom 16 0, 32, 8⟩
      [ContainerChild.component ⟨"l", 16, 8, false, false, 1, false, Focus.none⟩,
       ContainerChild.component ⟨"c", 16, 8, false, false, 1, false, Focus.none⟩]
      18 Direction.horizontal (MouseEventKind.drag MouseButton.left)
    = some (⟨"h4", Direction.horizontal, true, ResizeDrag.rightBottom 18 0, 32, 8⟩,
      [ContainerChild.component ⟨"l", 18, 8, false, false, 1, true, Focus.none⟩,
       ContainerChild.component ⟨"c", 14, 8, false, false, 1, true, Focus.none⟩]) from rfl]
    at h1
  have hcs : cs' =
      [ContainerChild.component ⟨"l", 18, 8, false, false, 1, true, Focus.none⟩,
       ContainerChild.component ⟨"c", 14, 8, false, false, 1, true, Focus.none⟩] := by
    have h1' := h1.symm
    simp only [Option.some_inj, Prod.mk.injEq] at h1'
    exact h1'.2
  subst hcs
  exact ⟨rfl, h3, h4, by rw [← h3, ← h4]; exact h7⟩

/-! ## C8: fixed immunity -/

theorem comp_resize_marks (comp : Component) (w h : Nat) :
    ((if (Component.resize comp w h).1.fixed_width then
        some (Component.resize comp w h).1.width else Option.none),
     (if (Component.resize comp w h).1.fixed_height then
        some (Component.resize comp w h).1.height else Option.none))
    = ((if comp.fixed_width then some comp.width else Option.none),
       (if comp.fixed_height then some comp.height else Option.none)) := by
  obtain ⟨-, -, h3, h4, -⟩ := Component.resize_pres comp w h
  have hw := Component.resize_fixed_width comp w h
  have hh := Component.resize_fixed_height comp w h
  rw [h3, h4]
  by_cases hf : comp.fixed_width = true
  · by_cases hg : comp.fixed_height = true
    · simp [hf, hg, hw hf, hh hg]
    · simp [hf, hg, hw hf]
  · by_cases hg : comp.fixed_height = true
    · simp [hf, hg, hh hg]
    · simp [hf, hg]

/-- Per-leaf fixed marks are preserved by every child resize. -/
theorem childResize_marks (c : ContainerChild) (w h : Nat) :
    fixedMarksChild (childResize c w h).1 = fixedMarksChild c :=
  (leavesMap_resize_all (fun c =>
      (if c.fixed_width then some c.width else Option.none,
       if c.fixed_height then some c.height else Option.none))
    (fun comp w h => comp_resize_marks comp w h)
    (fun _ => rfl) (shapeOf c)).1 c w h

theorem marksList_set : ∀ (cs : List ContainerChild) (i : Nat) (x : ContainerChild),
    fixedMarksChild x = fixedMarksChild (cs.getD i dfltChild) →
    fixedMarksList (cs.set i x) = fixedMarksList cs := by
  intro cs
  induction cs with
  | nil => intro i x hx; rfl
  | cons c cs ih =>
    intro i x hx
    cases i with
    | zero =>
      show fixedMarksList (x :: cs) = fixedMarksList (c :: cs)
      show leavesMapList _ (x :: cs) = leavesMapList _ (c :: cs)
      simp only [leavesMapList]
      have hx' : fixedMarksChild x = fixedMarksChild c := hx
      rw [show leavesMapChild (fun c => (if c.fixed_width then some c.width else
        Option.none, if c.fixed_height then some c.height else Option.none)) x
          = leavesMapChild _ c from hx']
    | succ i =>
      show fixedMarksList (c :: cs.set i x) = fixedMarksList (c :: cs)
      show leavesMapList _ (c :: cs.set i x) = leavesMapList _ (c :: cs)
      simp only [leavesMapList]
      rw [show leavesMapList (fun c => (if c.fixed_width then some c.width else
        Option.none, if c.fixed_height then some c.height else Option.none))
          (cs.set i x) = leavesMapList _ cs from ih i x hx]

theorem dragResizePair_marks (f : ContainerFields) (cs : List ContainerChild)
    (next iS iG : Nat) (dS dG : Nat × Nat) (f' : ContainerFields)
    (cs' : List ContainerChild)
    (h : dragResizePair f cs next iS dS iG dG = some (f', cs')) :
    fixedMarksList cs' = fixedMarksList cs := by
  simp only [dragResizePair] at h
  split at h
  · rename_i cS e hc
    simp only [Option.some_inj, Prod.mk.injEq] at h
    rw [← h.2]
    refine marksList_set cs iS cS ?_
    rw [show cS = (childResize (cs.getD iS dfltChild) dS.1 dS.2).1 from
      (congrArg Prod.fst hc).symm]
    exact childResize_marks _ _ _
  · rename_i cS hc
    split at h
    · simp at h
    · rename_i cG hcG
      simp only [Option.some_inj, Prod.mk.injEq] at h
      rw [← h.2]
      have h1 : fixedMarksList (cs.set iS cS) = fixedMarksList cs := by
        refine marksList_set cs iS cS ?_
        rw [show cS = (childResize (cs.getD iS dfltChild) dS.1 dS.2).1 from
          (congrArg Prod.fst hc).symm]
        exact childResize_marks _ _ _
      rw [← h1]
      refine marksList_set _ iG cG ?_
      rw [show cG = (childResize ((cs.set iS cS).getD iG dfltChild) dG.1 dG.2).1
        from (congrArg Prod.fst hcG).symm]
      exact childResize_marks _ _ _

theorem handleResizeCore_marks (f : ContainerFields) (cs : List ContainerChild)
    (next : Nat) (orient : Direction) (i0 i1 : Nat) (delta : Int)
    (f' : ContainerFields) (cs' : List ContainerChild)
    (h : handleResizeCore f cs next orient i0 i1 delta = some (f', cs')) :
    fixedMarksList cs' = fixedMarksList cs := by
  simp only [handleResizeCore] at h
  split at h
  · simp at h
  · split at h
    · simp only [Option.some_inj, Prod.mk.injEq] at h
      rw [← h.2]
    · split at h
      · simp only [Option.some_inj, Prod.mk.injEq] at h
        rw [← h.2]
      · split at h
        · simp only [Option.some_inj, Prod.mk.injEq] at h
          rw [← h.2]
        · split at h
          · exact dragResizePair_marks _ _ _ _ _ _ _ _ _ h
          · exact dragResizePair_marks _ _ _ _ _ _ _ _ _ h

/-- C8 (confirmed): a child marked fixed on an axis never changes its extent
along that axis across any successful resize of its parent container —
whether a full `ContainerList::resize` pass or an interactive border-drag
step — regardless of how siblings change; in fact the whole in-order list of
(fixed-axis, extent) marks of all leaves is preserved. -/
theorem C8_fixed_immunity (f : ContainerFields) (cs : List ContainerChild)
    (w h next : Nat) (orient : Direction) (kind : MouseEventKind) :
    (∀ f' cs', ContainerList.resize (f, cs) w h = ((f', cs'), Option.none) →
      fixedMarksList cs' = fixedMarksList cs) ∧
    (∀ f' cs', handle_resize f cs next orient kind = some (f', cs') →
      fixedMarksList cs' = fixedMarksList cs) := by
  constructor
  · intro f' cs' hres
    have h2 := ContainerList.resize_eq_resizeSh f cs w h
    rw [hres] at h2
    have hall := (leavesMap_resize_all (fun c =>
      (if c.fixed_width then some c.width else Option.none,
       if c.fixed_height then some c.height else Option.none))
      (fun comp w h => comp_resize_marks comp w h)
      (fun _ => rfl) (Shape.cont (shapeOfList cs))).1
      (ContainerChild.container f cs) w h
    rw [h2] at hall
    exact hall
  · intro f' cs' hres
    simp only [handle_resize] at hres
    split at hres
    · simp only [Option.some_inj, Prod.mk.injEq] at hres
      rw [← hres.2]
    · split at hres
      · simp only [Option.some_inj, Prod.mk.injEq] at hres
        rw [← hres.2]
      · rename_i mo ci
        split at hres
        · simp at hres
        · exact handleResizeCore_marks _ _ _ _ _ _ _ _ _ hres
      · exact handleResizeCore_marks _ _ _ _ _ _ _ _ _ hres

/-- Witness for C8: both parts at concrete inputs — a successful 10×5 resize
of a container holding a fixed-width child, and a successful drag step next
to it. -/
theorem C8_fixed_immunity_witness :
    fixedMarksList
      [ContainerChild.component ⟨"a", 7, 5, false, false, 0, true, Focus.none⟩,
       ContainerChild.component ⟨"b", 3, 2, true, true, 0, true, Focus.none⟩]
    = fixedMarksList
      [ContainerChild.component (Component.new "a" 0),
       ContainerChild.component
         (((Component.new "b" 0).set_fixed_width (some 3)).set_fixed_height
           (some 2))] ∧
    fixedMarksList
      [ContainerChild.component ⟨"l", 18, 8, false, false, 1, true, Focus.none⟩,
       ContainerChild.component ⟨"c", 14, 8, false, false, 1, true, Focus.none⟩]
    = fixedMarksList
      [ContainerChild.component ⟨"l", 16, 8, false, false, 1, false, Focus.none⟩,
       ContainerChild.component ⟨"c", 16, 8, false, false, 1, false, Focus.none⟩] :=
  ⟨(C8_fixed_immunity
      ⟨"wit", Direction.horizontal, true, ResizeDrag.none, 0, 0⟩
      [ContainerChild.component (Component.new "a" 0),
       ContainerChild.component
         (((Component.new "b" 0).set_fixed_width (some 3)).set_fixed_height
           (some 2))]
      10 5 0 Direction.horizontal MouseEventKind.moved).1
      ⟨"wit", Direction.horizontal, true, ResizeDrag.none, 10, 5⟩
      [ContainerChild.component ⟨"a", 7, 5, false, false, 0, true, Focus.none⟩,
       ContainerChild.component ⟨"b", 3, 2, true, true, 0, true, Focus.none⟩]
      rfl,
   (C8_fixed_immunity
      ⟨"h4", Direction.horizontal, true, ResizeDrag.rightBottom 16 0, 32, 8⟩
      [ContainerChild.component ⟨"l", 16, 8, false, false, 1, false, Focus.none⟩,
       ContainerChild.component ⟨"c", 16, 8, false, false, 1, false, Focus.none⟩]
      0 0 18 Direction.horizontal (MouseEventKind.drag MouseButton.left)).2
      ⟨"h4", Direction.horizontal, true, ResizeDrag.rightBottom 18 0, 32, 8⟩
      [ContainerChild.component ⟨"l", 18, 8, false, false, 1, true, Focus.none⟩,
       ContainerChild.component ⟨"c", 14, 8, false, false, 1, true, Focus.none⟩]
      rfl⟩

/-! ## C6: search_name -/

theorem searchNameGo_first_comp (orient : Direction) (before : String)
    (after : Option String) :
    ∀ (cs : List ContainerChild) (i : Nat) (pos : ComponentPos)
      (comp : Component), i < cs.length →
      cs.getD i dfltChild = ContainerChild.component comp →
      comp.name = before →
      (∀ j, j < i → (cs.getD j dfltChild).getName ≠ before) →
      searchNameGoSh (shapeOfList cs) orient before after cs pos
      = some (ContainerChild.component comp, pos.add (posAt orient cs i)) := by
  intro cs
  induction cs with
  | nil => intro i pos comp hi; exact absurd hi (Nat.not_lt_zero i)
  | cons c cs ih =>
    intro i pos comp hi hget hname hfirst
    cases i with
    | zero =>
      have hc : c = ContainerChild.component comp := hget
      subst hc
      have hb : before = comp.name := hname.symm
      cases orient <;>
        simp [shapeOfList, searchNameGoSh, ContainerChild.getName, hb, posAt,
          sumAxis, ComponentPos.add]
    | succ j =>
      have hne : ¬ (before = c.getName) := fun h =>
        hfirst 0 (Nat.succ_pos j) h.symm
      have hlt2 : j < cs.length := Nat.lt_of_succ_lt_succ hi
      have hfirst2 : ∀ k, k < j → (cs.getD k dfltChild).getName ≠ before :=
        fun k hk => hfirst (k + 1) (Nat.succ_lt_succ hk)
      cases orient with
      | horizontal =>
        have hstep := ih j ⟨pos.x + c.getWidth, pos.y⟩ comp hlt2 hget hname
          hfirst2
        cases c <;> simp only [shapeOfList, searchNameGoSh, if_neg hne] <;>
          rw [hstep] <;>
          simp [posAt, sumAxis, ComponentPos.add, axisExtent, Nat.add_assoc]
      | vertical =>
        have hstep := ih j ⟨pos.x, pos.y + c.getHeight⟩ comp hlt2 hget hname
          hfirst2
        cases c <;> simp only [shapeOfList, searchNameGoSh, if_neg hne] <;>
          rw [hstep] <;>
          simp [posAt, sumAxis, ComponentPos.add, axisExtent, Nat.add_assoc]

/-- C6 counterexample: a one-component container searched with the two-segment
path "a.b" — the segment "a" matches the `Component` child while the segment
"b" remains, yet `search_name` returns that component rather than `None`. -/
theorem C6_counterexample :
    ContainerList.search_name
      (⟨"root", Direction.horizontal, true, ResizeDrag.none, 10, 5⟩,
       [ContainerChild.component (Component.new "a" 0)])
      "a.b"
    = some (ContainerChild.component (Component.new "a" 0), ⟨0, 0⟩) := rfl

/-- C6 (corrected): when a path segment matches a `Component` child while
further segments remain, `search_name` does not return `None` — it returns
that component and its offset at once, silently discarding the unconsumed
remainder of the path: if the path splits as `(before, some rest)` and the
first child whose name equals `before` is a `Component`, the result is that
component with its cumulative offset, for every `rest`. -/
theorem C6_component_match_ignores_rest (f : ContainerFields)
    (cs : List ContainerChild) (path before rest : String) (i : Nat)
    (comp : Component)
    (hsplit : split_once path = (before, some rest))
    (hlt : i < cs.length)
    (hget : cs.getD i dfltChild = ContainerChild.component comp)
    (hname : comp.name = before)
    (hfirst : ∀ j, j < i → (cs.getD j dfltChild).getName ≠ before) :
    ContainerList.search_name (f, cs) path
    = some (ContainerChild.component comp, posAt f.orientation cs i) := by
  show searchNameGoSh (shapeOfList cs) f.orientation (split_once path).1
    (split_once path).2 cs ⟨0, 0⟩ = _
  rw [hsplit]
  rw [searchNameGo_first_comp f.orientation before (some rest) cs i ⟨0, 0⟩
    comp hlt hget hname hfirst]
  cases h : f.orientation <;> simp [ComponentPos.add, posAt]

/-- Witness for C6: the corrected claim at a concrete two-child container,
path "b.rest" matching the second child, a `Component` named "b". -/
theorem C6_component_match_ignores_rest_witness :
    ContainerList.search_name
      (⟨"top", Direction.vertical, true, ResizeDrag.none, 8, 8⟩,
       [ContainerChild.component ⟨"a", 8, 3, false, false, 1, false, Focus.none⟩,
        ContainerChild.component ⟨"b", 8, 5, false, false, 1, false, Focus.none⟩])
      "b.rest"
    = some (ContainerChild.component
        ⟨"b", 8, 5, false, false, 1, false, Focus.none⟩, ⟨0, 3⟩) := by
  have h := C6_component_match_ignores_rest
    ⟨"top", Direction.vertical, true, ResizeDrag.none, 8, 8⟩
    [ContainerChild.component ⟨"a", 8, 3, false, false, 1, false, Focus.none⟩,
     ContainerChild.component ⟨"b", 8, 5, false, false, 1, false, Focus.none⟩]
    "b.rest" "b" "rest" 1
    ⟨"b", 8, 5, false, false, 1, false, Focus.none⟩
    rfl (by decide) rfl rfl
    (by
      intro j hj
      interval_cases j
      decide)
  rw [h]
  rfl

/-! ## C3: focus exclusivity -/

theorem focusedCountChild_component (c : Component) :
    focusedCountChild (ContainerChild.component c) = focusWeight c.focus := by
  cases h : c.focus <;> simp [focusedCountChild, focusWeight, h]

theorem focusWeight_le_one (fo : Focus) : focusWeight fo ≤ 1 := by
  cases fo <;> simp [focusWeight]

theorem set_focus_partial_weight (c : Component) :
    focusWeight (c.set_focus Focus.partialFocus).focus = 1 := by
  simp only [Component.set_focus]
  split_ifs <;> simp_all [focusWeight]

theorem bumpPath_eq_none {α : Type} (r : Option (List Nat × α)) :
    bumpPath r = Option.none ↔ r = Option.none := by
  cases r with
  | none => simp [bumpPath]
  | some pa =>
    obtain ⟨p, a⟩ := pa
    cases p <;> simp [bumpPath]

theorem getCompListSh_nilpath (s : Shape) (cs : List ContainerChild) :
    getCompListSh s cs [] = Option.none := by
  cases s <;> cases cs <;> simp [getCompListSh]

theorem updateComp_shape (g : Component → Component) : ∀ s : Shape,
    (∀ c p, shapeOf (updateCompChildSh g s c p) = shapeOf c) ∧
    (∀ cs p, shapeOfList (updateCompListSh g s cs p) = shapeOfList cs) := by
  intro s
  induction s with
  | comp =>
    refine ⟨fun c p => ?_, fun cs p => ?_⟩
    · cases c with
      | component comp => cases p <;> simp [updateCompChildSh, shapeOf]
      | container f2 cs2 => simp [updateCompChildSh]
    · simp [updateCompListSh]
  | cont s ih =>
    refine ⟨fun c p => ?_, fun cs p => ?_⟩
    · cases c with
      | component comp => simp [updateCompChildSh]
      | container f2 cs2 => simp [updateCompChildSh, shapeOf, (ih.2 cs2 p)]
    · simp [updateCompListSh]
  | nil =>
    refine ⟨fun c p => ?_, fun cs p => ?_⟩
    · cases c <;> simp [updateCompChildSh]
    · simp [updateCompListSh]
  | cons sh st ihh iht =>
    refine ⟨fun c p => ?_, fun cs p => ?_⟩
    · cases c <;> simp [updateCompChildSh]
    · cases cs with
      | nil => simp [updateCompListSh]
      | cons c cs2 =>
        cases p with
        | nil => simp [updateCompListSh]
        | cons i rest =>
          cases i with
          | zero => simp [updateCompListSh, shapeOfList, ihh.1]
          | succ j => simp [updateCompListSh, shapeOfList, iht.2]

theorem getComp_update (g : Component → Component) : ∀ s : Shape,
    (∀ c p, getCompChildSh s (updateCompChildSh g s c p) p
      = Option.map g (getCompChildSh s c p)) ∧
    (∀ cs p, getCompListSh s (updateCompListSh g s cs p) p
      = Option.map g (getCompListSh s cs p)) := by
  intro s
  induction s with
  | comp =>
    refine ⟨fun c p => ?_, fun cs p => ?_⟩
    · cases c with
      | component comp => cases p <;> simp [updateCompChildSh, getCompChildSh]
      | container f2 cs2 => simp [updateCompChildSh, getCompChildSh]
    · simp [updateCompListSh, getCompListSh_nilpath]
      cases cs <;> cases p <;> simp [getCompListSh]
  | cont s ih =>
    refine ⟨fun c p => ?_, fun cs p => ?_⟩
    · cases c with
      | component comp => simp [updateCompChildSh, getCompChildSh]
      | container f2 cs2 =>
        simp [updateCompChildSh, getCompChildSh, ih.2 cs2 p]
    · cases cs <;> cases p <;> simp [updateCompListSh, getCompListSh]
  | nil =>
    refine ⟨fun c p => ?_, fun cs p => ?_⟩
    · cases c <;> cases p <;> simp [updateCompChildSh, getCompChildSh]
    · cases cs <;> cases p <;> simp [updateCompListSh, getCompListSh]
  | cons sh st ihh iht =>
    refine ⟨fun c p => ?_, fun cs p => ?_⟩
    · cases c <;> cases p <;> simp [updateCompChildSh, getCompChildSh]
    · cases cs with
      | nil => cases p <;> simp [updateCompListSh, getCompListSh]
      | cons c cs2 =>
        cases p with
        | nil => simp [updateCompListSh, getCompListSh]
        | cons i rest =>
          cases i with
          | zero => simp [updateCompListSh, getCompListSh, ihh.1]
          | succ j => simp [updateCompListSh, getCompListSh, iht.2]

theorem count_update (g : Component → Component) : ∀ s : Shape,
    (∀ c p comp, getCompChildSh s c p = some comp →
      focusedCountChild (updateCompChildSh g s c p) + focusWeight comp.focus
      = focusedCountChild c + focusWeight (g comp).focus) ∧
    (∀ cs p comp, getCompListSh s cs p = some comp →
      focusedCountList (updateCompListSh g s cs p) + focusWeight comp.focus
      = focusedCountList cs + focusWeight (g comp).focus) := by
  intro s
  induction s with
  | comp =>
    refine ⟨fun c p comp h => ?_, fun cs p comp h => ?_⟩
    · cases c with
      | component comp2 =>
        cases p with
        | nil =>
          simp only [getCompChildSh, Option.some_inj] at h
          subst h
          simp [updateCompChildSh, focusedCountChild_component, Nat.add_comm]
        | cons i rest => simp [getCompChildSh] at h
      | container f2 cs2 => simp [getCompChildSh] at h
    · cases cs <;> cases p <;> simp [getCompListSh] at h
  | cont s ih =>
    refine ⟨fun c p comp h => ?_, fun cs p comp h => ?_⟩
    · cases c with
      | component comp2 => simp [getCompChildSh] at h
      | container f2 cs2 =>
        simp only [getCompChildSh] at h
        simp [updateCompChildSh, focusedCountChild, ih.2 cs2 p comp h]
    · cases cs <;> cases p <;> simp [getCompListSh] at h
  | nil =>
    refine ⟨fun c p comp h => ?_, fun cs p comp h => ?_⟩
    · cases c <;> cases p <;> simp [getCompChildSh] at h
    · cases cs <;> cases p <;> simp [getCompListSh] at h
  | cons sh st ihh iht =>
    refine ⟨fun c p comp h => ?_, fun cs p comp h => ?_⟩
    · cases c <;> cases p <;> simp [getCompChildSh] at h
    · cases cs with
      | nil => cases p <;> simp [getCompListSh] at h
      | cons c cs2 =>
        cases p with
        | nil => simp [getCompListSh] at h
        | cons i rest =>
          cases i with
          | zero =>
            simp only [getCompListSh] at h
            have h2 := ihh.1 c rest comp h
            simp only [updateCompListSh, focusedCountList]
            omega
          | succ j =>
            simp only [getCompListSh] at h
            have h2 := iht.2 cs2 (j :: rest) comp h
            simp only [updateCompListSh, focusedCountList]
            omega

theorem getComp_weight_le : ∀ s : Shape,
    (∀ c p comp, getCompChildSh s c p = some comp →
      focusWeight comp.focus ≤ focusedCountChild c) ∧
    (∀ cs p comp, getCompListSh s cs p = some comp →
      focusWeight comp.focus ≤ focusedCountList cs) := by
  intro s
  induction s with
  | comp =>
    refine ⟨fun c p comp h => ?_, fun cs p comp h => ?_⟩
    · cases c with
      | component comp2 =>
        cases p with
        | nil =>
          simp only [getCompChildSh, Option.some_inj] at h
          subst h
          simp [focusedCountChild_component]
        | cons i rest => simp [getCompChildSh] at h
      | container f2 cs2 => simp [getCompChildSh] at h
    · cases cs <;> cases p <;> simp [getCompListSh] at h
  | cont s ih =>
    refine ⟨fun c p comp h => ?_, fun cs p comp h => ?_⟩
    · cases c with
      | component comp2 => simp [getCompChildSh] at h
      | container f2 cs2 =>
        simp only [getCompChildSh] at h
        simpa [focusedCountChild] using ih.2 cs2 p comp h
    · cases cs <;> cases p <;> simp [getCompListSh] at h
  | nil =>
    refine ⟨fun c p comp h => ?_, fun cs p comp h => ?_⟩
    · cases c <;> cases p <;> simp [getCompChildSh] at h
    · cases cs <;> cases p <;> simp [getCompListSh] at h
  | cons sh st ihh iht =>
    refine ⟨fun c p comp h => ?_, fun cs p comp h => ?_⟩
    · cases c <;> cases p <;> simp [getCompChildSh] at h
    · cases cs with
      | nil => cases p <;> simp [getCompListSh] at h
      | cons c cs2 =>
        cases p with
        | nil => simp [getCompListSh] at h
        | cons i rest =>
          cases i with
          | zero =>
            simp only [getCompListSh] at h
            have h2 := ihh.1 c rest comp h
            simp only [focusedCountList]
            omega
          | succ j =>
            simp only [getCompListSh] at h
            have h2 := iht.2 cs2 (j :: rest) comp h
            simp only [focusedCountList]
            omega

theorem bumpPath_eq_some {α : Type} (r : Option (List Nat × α)) (p : List Nat)
    (a : α) (h : bumpPath r = some (p, a)) :
    (∃ j rest, p = (j + 1) :: rest ∧ r = some (j :: rest, a)) ∨
    (p = [] ∧ r = some ([], a)) := by
  cases r with
  | none => simp [bumpPath] at h
  | some pa =>
    obtain ⟨p2, a2⟩ := pa
    cases p2 with
    | nil =>
      simp only [bumpPath, Option.some_inj, Prod.mk.injEq] at h
      exact Or.inr ⟨h.1.symm, by rw [h.2]⟩
    | cons j rest =>
      simp only [bumpPath, Option.some_inj, Prod.mk.injEq] at h
      exact Or.inl ⟨j, rest, h.1.symm, by rw [h.2]⟩

theorem searchFocused_valid : ∀ s : Shape,
    (∀ f2 cs2, s = Shape.cont (shapeOfList cs2) →
      ∀ p q comp,
        searchFocusedChildSh s (ContainerChild.container f2 cs2)
          = some (p, q, comp) →
        getCompChildSh s (ContainerChild.container f2 cs2) p = some comp ∧
        comp.focus ≠ Focus.none) ∧
    (∀ orient cs pos, s = shapeOfList cs →
      ∀ p q comp, searchFocusedGoSh s orient cs pos = some (p, q, comp) →
        getCompListSh s cs p = some comp ∧ comp.focus ≠ Focus.none) := by
  intro s
  induction s with
  | comp =>
    refine ⟨fun f2 cs2 hs => by simp at hs, fun orient cs pos hs => ?_⟩
    cases cs with
    | nil => intro p q comp h; simp [searchFocusedGoSh] at h
    | cons c cs2 => simp [shapeOfList] at hs
  | cont s ih =>
    refine ⟨fun f2 cs2 hs p q comp h => ?_, fun orient cs pos hs => ?_⟩
    · injection hs with hs2
      subst hs2
      simp only [searchFocusedChildSh] at h
      have h2 := (ih.2 f2.orientation cs2 ⟨0, 0⟩ rfl) p q comp h
      simpa [getCompChildSh] using h2
    · cases cs with
      | nil => intro p q comp h; simp [searchFocusedGoSh] at h
      | cons c cs2 => simp [shapeOfList] at hs
  | nil =>
    refine ⟨fun f2 cs2 hs => by simp at hs, fun orient cs pos hs => ?_⟩
    intro p q comp h
    cases cs <;> simp [searchFocusedGoSh] at h
  | cons sh st ihh iht =>
    refine ⟨fun f2 cs2 hs => by simp at hs, fun orient cs pos hs => ?_⟩
    cases cs with
    | nil => simp [shapeOfList] at hs
    | cons c cs2 =>
      simp only [shapeOfList, Shape.cons.injEq] at hs
      obtain ⟨hsh, hst⟩ := hs
      subst hsh
      subst hst
      intro p q comp h
      cases c with
      | component comp2 =>
        simp only [searchFocusedGoSh] at h
        cases hf : comp2.focus with
        | none =>
          simp only [hf] at h
          rcases bumpPath_eq_some _ _ _ h with ⟨j, rest, hp, hr⟩ | ⟨hp, hr⟩
          · subst hp
            have hv := (iht.2 orient cs2 _ rfl) (j :: rest) q comp hr
            exact ⟨by simpa [getCompListSh, shapeOfList] using hv.1, hv.2⟩
          · have hv := (iht.2 orient cs2 _ rfl) [] q comp hr
            rw [getCompListSh_nilpath] at hv
            exact absurd hv.1 (by simp)
        | focus =>
          simp only [hf, Option.some_inj, Prod.mk.injEq] at h
          obtain ⟨hp, hq, hc2⟩ := h
          subst hp
          subst hc2
          exact ⟨by simp [getCompListSh, getCompChildSh, shapeOf],
            by simp [hf]⟩
        | partialFocus =>
          simp only [hf, Option.some_inj, Prod.mk.injEq] at h
          obtain ⟨hp, hq, hc2⟩ := h
          subst hp
          subst hc2
          exact ⟨by simp [getCompListSh, getCompChildSh, shapeOf],
            by simp [hf]⟩
      | container f2 cs3 =>
        simp only [searchFocusedGoSh] at h
        cases hc : searchFocusedChildSh (shapeOf (ContainerChild.container f2
            cs3)) (ContainerChild.container f2 cs3) with
        | some pr =>
          obtain ⟨p2, q2, comp3⟩ := pr
          simp only [hc, Option.some_inj, Prod.mk.injEq] at h
          obtain ⟨hp, hq, hcn⟩ := h
          subst hp
          subst hcn
          have hv := (ihh.1 f2 cs3 (by simp [shapeOf])) p2 q2 comp3 hc
          refine ⟨?_, hv.2⟩
          simpa [getCompListSh, shapeOfList] using hv.1
        | none =>
          simp only [hc] at h
          rcases bumpPath_eq_some _ _ _ h with ⟨j, rest, hp, hr⟩ | ⟨hp, hr⟩
          · subst hp
            have hv := (iht.2 orient cs2 _ rfl) (j :: rest) q comp hr
            exact ⟨by simpa [getCompListSh, shapeOfList] using hv.1, hv.2⟩
          · have hv := (iht.2 orient cs2 _ rfl) [] q comp hr
            rw [getCompListSh_nilpath] at hv
            exact absurd hv.1 (by simp)

theorem searchFocused_none_count : ∀ s : Shape,
    (∀ f2 cs2, s = Shape.cont (shapeOfList cs2) →
      searchFocusedChildSh s (ContainerChild.container f2 cs2) = Option.none →
      focusedCountList cs2 = 0) ∧
    (∀ orient cs pos, s = shapeOfList cs →
      searchFocusedGoSh s orient cs pos = Option.none →
      focusedCountList cs = 0) := by
  intro s
  induction s with
  | comp =>
    refine ⟨fun f2 cs2 hs => by simp at hs, fun orient cs pos hs h => ?_⟩
    cases cs with
    | nil => simp [focusedCountList]
    | cons c cs2 => simp [shapeOfList] at hs
  | cont s ih =>
    refine ⟨fun f2 cs2 hs h => ?_, fun orient cs pos hs h => ?_⟩
    · injection hs with hs2
      subst hs2
      simp only [searchFocusedChildSh] at h
      exact (ih.2 f2.orientation cs2 ⟨0, 0⟩ rfl) h
    · cases cs with
      | nil => simp [focusedCountList]
      | cons c cs2 => simp [shapeOfList] at hs
  | nil =>
    refine ⟨fun f2 cs2 hs => by simp at hs, fun orient cs pos hs h => ?_⟩
    cases cs with
    | nil => simp [focusedCountList]
    | cons c cs2 => simp [shapeOfList] at hs
  | cons sh st ihh iht =>
    refine ⟨fun f2 cs2 hs => by simp at hs, fun orient cs pos hs h => ?_⟩
    cases cs with
    | nil => simp [focusedCountList]
    | cons c cs2 =>
      simp only [shapeOfList, Shape.cons.injEq] at hs
      obtain ⟨hsh, hst⟩ := hs
      subst hsh
      subst hst
      cases c with
      | component comp2 =>
        simp only [searchFocusedGoSh] at h
        cases hf : comp2.focus with
        | none =>
          simp only [hf] at h
          have h2 := (iht.2 orient cs2 _ rfl) ((bumpPath_eq_none _).mp h)
          simp [focusedCountList, focusedCountChild_component, focusWeight,
            hf, h2]
        | focus => simp [hf] at h
        | partialFocus => simp [hf] at h
      | container f2 cs3 =>
        simp only [searchFocusedGoSh] at h
        cases hc : searchFocusedChildSh (shapeOf (ContainerChild.container f2
            cs3)) (ContainerChild.container f2 cs3) with
        | some pr => simp [hc] at h
        | none =>
          simp only [hc] at h
          have h2 := (iht.2 orient cs2 _ rfl) ((bumpPath_eq_none _).mp h)
          have h3 := (ihh.1 f2 cs3 (by simp [shapeOf])) hc
          simp [focusedCountList, focusedCountChild, h2, h3]

theorem searchPosition_valid : ∀ s : Shape,
    (∀ f2 cs2 pos, s = Shape.cont (shapeOfList cs2) →
      ∀ p comp,
        searchPositionChildSh s (ContainerChild.container f2 cs2) pos
          = some (p, comp) →
        getCompChildSh s (ContainerChild.container f2 cs2) p = some comp) ∧
    (∀ orient cs pos off, s = shapeOfList cs →
      ∀ p comp, searchPositionGoSh s orient cs pos off = some (p, comp) →
        getCompListSh s cs p = some comp) := by
  intro s
  induction s with
  | comp =>
    refine ⟨fun f2 cs2 pos hs => by simp at hs,
      fun orient cs pos off hs p comp h => ?_⟩
    cases cs with
    | nil => simp [searchPositionGoSh] at h
    | cons c cs2 => simp [shapeOfList] at hs
  | cont s ih =>
    refine ⟨fun f2 cs2 pos hs p comp h => ?_,
      fun orient cs pos off hs p comp h => ?_⟩
    · injection hs with hs2
      subst hs2
      simp only [searchPositionChildSh] at h
      have h2 := (ih.2 f2.orientation cs2 pos ⟨0, 0⟩ rfl) p comp h
      simpa [getCompChildSh] using h2
    · cases cs with
      | nil => simp [searchPositionGoSh] at h
      | cons c cs2 => simp [shapeOfList] at hs
  | nil =>
    refine ⟨fun f2 cs2 pos hs => by simp at hs,
      fun orient cs pos off hs p comp h => ?_⟩
    cases cs <;> simp [searchPositionGoSh] at h
  | cons sh st ihh iht =>
    refine ⟨fun f2 cs2 pos hs => by simp at hs,
      fun orient cs pos off hs p comp h => ?_⟩
    cases cs with
    | nil => simp [shapeOfList] at hs
    | cons c cs2 =>
      simp only [shapeOfList, Shape.cons.injEq] at hs
      obtain ⟨hsh, hst⟩ := hs
      subst hsh
      subst hst
      simp only [searchPositionGoSh] at h
      split at h
      · cases c with
        | component comp2 =>
          simp only [Option.some_inj, Prod.mk.injEq] at h
          obtain ⟨hp, hc2⟩ := h
          subst hp
          subst hc2
          simp [getCompListSh, getCompChildSh, shapeOf]
        | container f2 cs3 =>
          cases hc : searchPositionChildSh (shapeOf (ContainerChild.container
              f2 cs3)) (ContainerChild.container f2 cs3) (pos.sub off) with
          | some pr =>
            obtain ⟨p2, comp3⟩ := pr
            simp only [hc, Option.some_inj, Prod.mk.injEq] at h
            obtain ⟨hp, hc2⟩ := h
            subst hp
            subst hc2
            have hv := (ihh.1 f2 cs3 (pos.sub off) (by simp [shapeOf]))
              p2 comp3 hc
            simpa [getCompListSh, shapeOfList] using hv
          | none => simp [hc] at h
      · rcases bumpPath_eq_some _ _ _ h with ⟨j, rest, hp, hr⟩ | ⟨hp, hr⟩
        · subst hp
          have hv := (iht.2 orient cs2 pos _ rfl) (j :: rest) comp hr
          simpa [getCompListSh, shapeOfList] using hv
        · have hv := (iht.2 orient cs2 pos _ rfl) [] comp hr
          rw [getCompListSh_nilpath] at hv
          exact absurd hv (by simp)

theorem handle_key_border_focus (c : Component) (e : KeyEvent) (b : Border)
    (h : (Component.handle_key c e).2 = some b) :
    (Component.handle_key c e).1.focus = Focus.none := by
  cases hf : c.focus <;> cases he : e.code <;>
    simp_all [Component.handle_key, Component.set_focus]

/-- One key event through the root keeps the focused-leaf count at most one
(and never touches the container's own fields). -/
theorem handle_key_count (f : ContainerFields) (cs : List ContainerChild)
    (e : KeyEvent) (h : focusedCountList cs ≤ 1) :
    (ContainerList.handle_key (f, cs) e).1 = f ∧
    focusedCountList (ContainerList.handle_key (f, cs) e).2 ≤ 1 := by
  cases hsf : searchFocusedGoSh (shapeOfList cs) f.orientation cs ⟨0, 0⟩ with
  | some pr =>
    obtain ⟨path, pos, comp⟩ := pr
    obtain ⟨hget, hfoc⟩ := (searchFocused_valid (shapeOfList cs)).2
      f.orientation cs ⟨0, 0⟩ rfl path pos comp hsf
    have hw : focusWeight comp.focus = 1 := by
      cases hfc : comp.focus <;> simp_all [focusWeight]
    have hge := (getComp_weight_le (shapeOfList cs)).2 cs path comp hget
    have hcnt : focusedCountList cs = 1 := by omega
    have hcu := (count_update (fun _ => (Component.handle_key comp e).1)
      (shapeOfList cs)).2 cs path comp hget
    have hw2 := focusWeight_le_one ((Component.handle_key comp e).1).focus
    have hshape := (updateComp_shape (fun _ => (Component.handle_key comp e).1)
      (shapeOfList cs)).2 cs path
    have hget1 := (getComp_update (fun _ => (Component.handle_key comp e).1)
      (shapeOfList cs)).2 cs path
    rw [hget] at hget1
    cases hb : (Component.handle_key comp e).2 with
    | none =>
      simp only [ContainerList.handle_key, hsf, hb]
      exact ⟨by trivial, by omega⟩
    | some b =>
      have hbf := handle_key_border_focus comp e b hb
      have hw0 : focusWeight ((Component.handle_key comp e).1).focus = 0 := by
        simp [hbf, focusWeight]
      cases hfn : find_next_pos pos b ((Component.handle_key comp e).1).width
          ((Component.handle_key comp e).1).height f.width f.height with
      | none =>
        simp only [ContainerList.handle_key, hsf, hb, hfn]
        refine ⟨by trivial, ?_⟩
        rw [hshape]
        have hcu2 := (count_update (fun c => c.set_focus Focus.partialFocus)
          (shapeOfList cs)).2 _ path _ hget1
        rw [set_focus_partial_weight] at hcu2
        omega
      | some np =>
        cases hsp : searchPositionGoSh (shapeOfList (updateCompListSh
            (fun _ => (Component.handle_key comp e).1) (shapeOfList cs) cs
            path)) f.orientation (updateCompListSh
            (fun _ => (Component.handle_key comp e).1) (shapeOfList cs) cs
            path) np ⟨0, 0⟩ with
        | none =>
          simp only [ContainerList.handle_key, hsf, hb, hfn, hsp]
          exact ⟨by trivial, by omega⟩
        | some pr2 =>
          obtain ⟨p2, comp2⟩ := pr2
          simp only [ContainerList.handle_key, hsf, hb, hfn, hsp]
          refine ⟨by trivial, ?_⟩
          rw [hshape]
          rw [hshape] at hsp
          have hv2 := (searchPosition_valid (shapeOfList cs)).2 f.orientation
            _ np ⟨0, 0⟩ hshape.symm p2 comp2 hsp
          have hcu2 := (count_update (fun c => c.set_focus Focus.partialFocus)
            (shapeOfList cs)).2 _ p2 _ hv2
          rw [set_focus_partial_weight] at hcu2
          have hw3 := focusWeight_le_one comp2.focus
          omega
  | none =>
    have hc0 := (searchFocused_none_count (shapeOfList cs)).2 f.orientation cs
      ⟨0, 0⟩ rfl hsf
    cases he : e.code with
    | esc =>
      simp only [ContainerList.handle_key, hsf, he]
      exact ⟨by trivial, by show focusedCountList cs ≤ 1; omega⟩
    | other =>
      simp only [ContainerList.handle_key, hsf, he]
      exact ⟨by trivial, by show focusedCountList cs ≤ 1; omega⟩
    | enter =>
      cases hsp : searchPositionGoSh (shapeOfList cs) f.orientation cs ⟨0, 0⟩
          ⟨0, 0⟩ with
      | none =>
        simp only [ContainerList.handle_key, hsf, he, hsp]
        exact ⟨by trivial, by show focusedCountList cs ≤ 1; omega⟩
      | some pr2 =>
        obtain ⟨p2, comp2⟩ := pr2
        simp only [ContainerList.handle_key, hsf, he, hsp]
        refine ⟨by trivial, ?_⟩
        have hv2 := (searchPosition_valid (shapeOfList cs)).2 f.orientation cs
          ⟨0, 0⟩ ⟨0, 0⟩ rfl p2 comp2 hsp
        have hcu2 := (count_update (fun c => c.set_focus Focus.partialFocus)
          (shapeOfList cs)).2 cs p2 comp2 hv2
        rw [set_focus_partial_weight] at hcu2
        have hw3 := focusWeight_le_one comp2.focus
        omega
    | up =>
      cases hsp : searchPositionGoSh (shapeOfList cs) f.orientation cs ⟨0, 0⟩
          ⟨0, 0⟩ with
      | none =>
        simp only [ContainerList.handle_key, hsf, he, hsp]
        exact ⟨by trivial, by show focusedCountList cs ≤ 1; omega⟩
      | some pr2 =>
        obtain ⟨p2, comp2⟩ := pr2
        simp only [ContainerList.handle_key, hsf, he, hsp]
        refine ⟨by trivial, ?_⟩
        have hv2 := (searchPosition_valid (shapeOfList cs)).2 f.orientation cs
          ⟨0, 0⟩ ⟨0, 0⟩ rfl p2 comp2 hsp
        have hcu2 := (count_update (fun c => c.set_focus Focus.partialFocus)
          (shapeOfList cs)).2 cs p2 comp2 hv2
        rw [set_focus_partial_weight] at hcu2
        have hw3 := focusWeight_le_one comp2.focus
        omega
    | down =>
      cases hsp : searchPositionGoSh (shapeOfList cs) f.orientation cs ⟨0, 0⟩
          ⟨0, 0⟩ with
      | none =>
        simp only [ContainerList.handle_key, hsf, he, hsp]
        exact ⟨by trivial, by show focusedCountList cs ≤ 1; omega⟩
      | some pr2 =>
        obtain ⟨p2, comp2⟩ := pr2
        simp only [ContainerList.handle_key, hsf, he, hsp]
        refine ⟨by trivial, ?_⟩
        have hv2 := (searchPosition_valid (shapeOfList cs)).2 f.orientation cs
          ⟨0, 0⟩ ⟨0, 0⟩ rfl p2 comp2 hsp
        have hcu2 := (count_update (fun c => c.set_focus Focus.partialFocus)
          (shapeOfList cs)).2 cs p2 comp2 hv2
        rw [set_focus_partial_weight] at hcu2
        have hw3 := focusWeight_le_one comp2.focus
        omega
    | left =>
      cases hsp : searchPositionGoSh (shapeOfList cs) f.orientation cs ⟨0, 0⟩
          ⟨0, 0⟩ with
      | none =>
        simp only [ContainerList.handle_key, hsf, he, hsp]
        exact ⟨by trivial, by show focusedCountList cs ≤ 1; omega⟩
      | some pr2 =>
        obtain ⟨p2, comp2⟩ := pr2
        simp only [ContainerList.handle_key, hsf, he, hsp]
        refine ⟨by trivial, ?_⟩
        have hv2 := (searchPosition_valid (shapeOfList cs)).2 f.orientation cs
          ⟨0, 0⟩ ⟨0, 0⟩ rfl p2 comp2 hsp
        have hcu2 := (count_update (fun c => c.set_focus Focus.partialFocus)
          (shapeOfList cs)).2 cs p2 comp2 hv2
        rw [set_focus_partial_weight] at hcu2
        have hw3 := focusWeight_le_one comp2.focus
        omega
    | right =>
      cases hsp : searchPositionGoSh (shapeOfList cs) f.orientation cs ⟨0, 0⟩
          ⟨0, 0⟩ with
      | none =>
        simp only [ContainerList.handle_key, hsf, he, hsp]
        exact ⟨by trivial, by show focusedCountList cs ≤ 1; omega⟩
      | some pr2 =>
        obtain ⟨p2, comp2⟩ := pr2
        simp only [ContainerList.handle_key, hsf, he, hsp]
        refine ⟨by trivial, ?_⟩
        have hv2 := (searchPosition_valid (shapeOfList cs)).2 f.orientation cs
          ⟨0, 0⟩ ⟨0, 0⟩ rfl p2 comp2 hsp
        have hcu2 := (count_update (fun c => c.set_focus Focus.partialFocus)
          (shapeOfList cs)).2 cs p2 comp2 hv2
        rw [set_focus_partial_weight] at hcu2
        have hw3 := focusWeight_le_one comp2.focus
        omega

/-- C3 (confirmed): starting from a tree with no focused node, any sequence
of key events dispatched through the root container's `handle_key` leaves at
most one leaf with `Focus` or `PartialFocus` — never two distinct nodes
simultaneously, since the focused-leaf count of the whole tree stays at most
one. -/
theorem C3_focus_exclusivity (f : ContainerFields) (cs : List ContainerChild)
    (es : List KeyEvent) (h0 : focusedCountList cs = 0) :
    focusedCountList (applyKeys (f, cs) es).2 ≤ 1 := by
  have main : ∀ (es2 : List KeyEvent) (l : ContainerList),
      focusedCountList l.2 ≤ 1 → focusedCountList (applyKeys l es2).2 ≤ 1 := by
    intro es2
    induction es2 with
    | nil =>
      intro l h
      simpa [applyKeys] using h
    | cons e es3 ih =>
      intro l h
      have hstep := handle_key_count l.1 l.2 e h
      have heq : applyKeys l (e :: es3)
          = applyKeys (ContainerList.handle_key l e) es3 := by
        simp [applyKeys]
      rw [heq]
      exact ih (ContainerList.handle_key l e) hstep.2
  exact main es (f, cs) (by show focusedCountList cs ≤ 1; omega)

/-- Witness for C3: the test scenario's tree — a vertical pair "a"/"b" nested
beside a leaf "c" in a horizontal root, all unfocused — after the key
sequence Enter, Enter, Esc, Down, Right has at most one focused leaf. -/
theorem C3_focus_exclusivity_witness :
    focusedCountList
      [ContainerChild.container
         ⟨"vertical", Direction.vertical, true, ResizeDrag.none, 16, 8⟩
         [ContainerChild.component ⟨"a", 16, 4, false, true, 1, false,
            Focus.none⟩,
          ContainerChild.component ⟨"b", 16, 4, false, false, 1, false,
            Focus.none⟩],
       ContainerChild.component ⟨"c", 16, 8, false, false, 1, false,
         Focus.none⟩] = 0 ∧
    focusedCountList (applyKeys
      (⟨"horizontal", Direction.horizontal, true, ResizeDrag.none, 32, 8⟩,
       [ContainerChild.container
          ⟨"vertical", Direction.vertical, true, ResizeDrag.none, 16, 8⟩
          [ContainerChild.component ⟨"a", 16, 4, false, true, 1, false,
             Focus.none⟩,
           ContainerChild.component ⟨"b", 16, 4, false, false, 1, false,
             Focus.none⟩],
        ContainerChild.component ⟨"c", 16, 8, false, false, 1, false,
          Focus.none⟩])
      [⟨KeyCode.enter⟩, ⟨KeyCode.enter⟩, ⟨KeyCode.esc⟩, ⟨KeyCode.down⟩,
       ⟨KeyCode.right⟩]).2 ≤ 1 :=
  ⟨by decide,
   C3_focus_exclusivity
     ⟨"horizontal", Direction.horizontal, true, ResizeDrag.none, 32, 8⟩
     [ContainerChild.container
        ⟨"vertical", Direction.vertical, true, ResizeDrag.none, 16, 8⟩
        [ContainerChild.component ⟨"a", 16, 4, false, true, 1, false,
           Focus.none⟩,
         ContainerChild.component ⟨"b", 16, 4, false, false, 1, false,
           Focus.none⟩],
      ContainerChild.component ⟨"c", 16, 8, false, false, 1, false,
        Focus.none⟩]
     [⟨KeyCode.enter⟩, ⟨KeyCode.enter⟩, ⟨KeyCode.esc⟩, ⟨KeyCode.down⟩,
      ⟨KeyCode.right⟩]
     (by decide)⟩

end TuiTiling
